import Mathlib

/-!
# OCFT (OpenClaw File Transfer) — verification of the chunk codec and transfer engine

Shallow embedding of `src/chunker.ts`, `src/protocol.ts` and `src/transfer.ts`.

Modelling conventions:
* Files and chunk payloads are byte lists (`List Nat`); each entry is one byte.
* `sha256` abstracts the cryptographic digest from node's `crypto` module as a
  pure computable function of the byte list (a 64-bit fold).  No theorem below
  depends on any property of this function beyond it being a function: the
  round-trip and gate results hold by congruence, and mismatch results feed the
  declared hash as ordinary data.
* JavaScript `Map` objects are association lists whose keys are unique
  (uniqueness is intrinsic to `Map`; theorems about arbitrary assembler states
  take it as a hypothesis).  `Set<number>` objects are duplicate-free lists in
  insertion order.
* Timestamps (`Date.now()`) are passed in explicitly as a `now : Nat` argument.
* Base64 encoding/decoding of chunk bytes and of whole messages
  (`encodeForChat` / `decodeFromChat`) is a bijection on well-formed data and
  is abstracted: incoming chat text is an abstract datum that either lacks the
  protocol marker, carries it but fails to decode, or decodes to a message.
* `EventEmitter.emit` calls are notifications with no effect on engine state
  and are not modelled.
-/

namespace OCFT

/-- Model of the SHA-256 hex digest from `chunker.ts` (`sha256`): an abstract
pure digest function on byte lists, here a 64-bit polynomial fold.  The
development only uses that equal inputs give equal digests. -/
def sha256 (data : List Nat) : Nat :=
  data.foldl (fun h b => (h * 31 + b % 256) % (2 ^ 64)) 5381

/-! ## Association-list maps (JavaScript `Map`) and sets (JavaScript `Set`) -/

/-- `Map.get`: the value bound to `k`, if any. -/
def mget {κ α : Type} [DecidableEq κ] (l : List (κ × α)) (k : κ) : Option α :=
  (l.find? (fun p => p.1 = k)).map (fun p => p.2)

/-- `Map.set`: rebind `k` in place if present, else append the new binding
(JavaScript `Map.set` keeps insertion order and overwrites in place). -/
def mset {κ α : Type} [DecidableEq κ] (l : List (κ × α)) (k : κ) (v : α) :
    List (κ × α) :=
  if l.any (fun p => p.1 = k) then
    l.map (fun p => if p.1 = k then (k, v) else p)
  else l ++ [(k, v)]

/-- `Map.has`. -/
def mhas {κ α : Type} [DecidableEq κ] (l : List (κ × α)) (k : κ) : Bool :=
  l.any (fun p => p.1 = k)

/-- `Set.add`: append if not already present. -/
def sadd (l : List Int) (x : Int) : List Int :=
  if x ∈ l then l else l ++ [x]

/-! ## Chunk codec (`chunker.ts`) -/

/-- Default chunk size, 48 KiB (`DEFAULT_CHUNK_SIZE`). -/
def DEFAULT_CHUNK_SIZE : Nat := 48 * 1024

/-- A produced chunk (`Chunk`): index, raw bytes, digest of those bytes.
The index is an `Int` because protocol messages also carry the sentinel `-1`. -/
structure Chunk where
  index : Int
  data : List Nat
  hash : Nat
deriving DecidableEq, Repr

/-- JavaScript `Buffer.subarray(start, end)` on a byte list: negative bounds
count from the end, bounds clamp to `[0, length]`, and an empty slice results
when the resolved start is not below the resolved end. -/
def jsSubarray (f : List Nat) (start stop : Int) : List Nat :=
  let len : Int := f.length
  let s : Int := if start < 0 then max (len + start) 0 else min start len
  let e : Int := if stop < 0 then max (len + stop) 0 else min stop len
  if s < e then (f.drop s.toNat).take (e - s).toNat else []

/-- `readChunk(filePath, index, chunkSize)` from `chunker.ts`, with the file's
bytes passed directly: slice `[index*chunkSize, min(index*chunkSize+chunkSize,
length))` and digest it.  The source never range-checks `index`. -/
def readChunk (file : List Nat) (index : Int) (chunkSize : Nat) : Chunk :=
  let start : Int := index * chunkSize
  let stop : Int := min (start + chunkSize) (file.length : Int)
  let chunkData := jsSubarray file start stop
  { index := index, data := chunkData, hash := sha256 chunkData }

/-- `Math.ceil(size / chunkSize)` for naturals (the `totalChunks` computation);
division by zero yields 0 (the source would produce `Infinity`, never exercised
by the claims, which all take `chunkSize > 0`). -/
def ceilDiv (size chunkSize : Nat) : Nat := (size + chunkSize - 1) / chunkSize

/-- `FileInfo` from `chunker.ts`, minus the `filename`/`mimeType` string
guessing (carried verbatim as computed below). -/
structure FileInfo where
  filename : String
  size : Nat
  mimeType : String
  hash : Nat
  chunkSize : Nat
  totalChunks : Nat
deriving DecidableEq, Repr

/-- The extension table of `getFileInfo`. -/
def mimeFor (ext : String) : String :=
  if ext = "txt" then "text/plain"
  else if ext = "json" then "application/json"
  else if ext = "js" then "text/javascript"
  else if ext = "ts" then "text/typescript"
  else if ext = "html" then "text/html"
  else if ext = "css" then "text/css"
  else if ext = "md" then "text/markdown"
  else if ext = "png" then "image/png"
  else if ext = "jpg" then "image/jpeg"
  else if ext = "jpeg" then "image/jpeg"
  else if ext = "gif" then "image/gif"
  else if ext = "webp" then "image/webp"
  else if ext = "pdf" then "application/pdf"
  else if ext = "zip" then "application/zip"
  else if ext = "tar" then "application/x-tar"
  else if ext = "gz" then "application/gzip"
  else "application/octet-stream"

/-- `getFileInfo(filePath, chunkSize)`: whole-file digest, size, guessed MIME
type and `totalChunks = ceil(size / chunkSize)`. -/
def getFileInfo (filePath : String) (file : List Nat) (chunkSize : Nat) :
    FileInfo :=
  let ext := ((filePath.splitOn ".").getLast?.getD "").toLower
  let base := (filePath.splitOn "/").getLast?.getD ""
  { filename := if base = "" then "file" else base
    size := file.length
    mimeType := mimeFor ext
    hash := sha256 file
    chunkSize := chunkSize
    totalChunks := ceilDiv file.length chunkSize }

/-- State of a `ChunkAssembler`: destination path, expected whole-file digest,
expected chunk count, and the `Map<number, Buffer>` of stored chunks. -/
structure AsmState where
  outputPath : String
  expectedHash : Nat
  totalChunks : Nat
  chunks : List (Int × List Nat)
deriving DecidableEq, Repr

/-- `new ChunkAssembler(outputPath, expectedHash, totalChunks)`. -/
def AsmState.new (outputPath : String) (expectedHash : Nat)
    (totalChunks : Nat) : AsmState :=
  { outputPath := outputPath, expectedHash := expectedHash
    totalChunks := totalChunks, chunks := [] }

/-- `ChunkAssembler.addChunk(index, data, expectedChunkHash)`: if the digest of
`data` differs from the declared one the chunk is not stored and `false` is
returned; otherwise the chunk is stored (overwriting any previous binding) and
`true` is returned. -/
def AsmState.addChunk (a : AsmState) (index : Int) (data : List Nat)
    (expectedChunkHash : Nat) : AsmState × Bool :=
  if sha256 data ≠ expectedChunkHash then (a, false)
  else ({ a with chunks := mset a.chunks index data }, true)

/-- `ChunkAssembler.isComplete()`. -/
def AsmState.isComplete (a : AsmState) : Bool :=
  a.chunks.length = a.totalChunks

/-- `ChunkAssembler.getMissingChunks()`: indices in `[0, totalChunks)` with no
stored chunk, ascending. -/
def AsmState.getMissingChunks (a : AsmState) : List Nat :=
  (List.range a.totalChunks).filter (fun i => ¬ mhas a.chunks (i : Int))

/-- `ChunkAssembler.getProgress()`: `Math.round(chunks.size / totalChunks *
100)`.  For a nonnegative rational `x`, `Math.round x = ⌊x + 1/2⌋`, which on
naturals is `(200·size + total) / (2·total)` by exact arithmetic. -/
def AsmState.getProgress (a : AsmState) : Nat :=
  (200 * a.chunks.length + a.totalChunks) / (2 * a.totalChunks)

/-- Failure outcomes of `ChunkAssembler.assemble()` (the source encodes them
as strings; the structured payloads carry exactly the data interpolated into
those strings). -/
inductive AsmError where
  /-- `Missing chunks: <list>` — the incompleteness gate. -/
  | missingChunks (indices : List Nat)
  /-- `Missing chunk <i>` — the per-index recheck inside the copy loop. -/
  | missingChunk (i : Nat)
  /-- `File hash mismatch: expected <e>, got <a>`. -/
  | hashMismatch (expected actual : Nat)
deriving DecidableEq, Repr

/-- The in-order copy loop of `assemble`: look every index of
`[0, totalChunks)` up, failing on the first gap. -/
def collectChunks (a : AsmState) : (i : Nat) → Except AsmError (List (List Nat))
  | 0 => .ok []
  | n + 1 =>
    match collectChunks a n with
    | .error e => .error e
    | .ok bufs =>
      match mget a.chunks (n : Int) with
      | none => .error (.missingChunk n)
      | some buf => .ok (bufs ++ [buf])

/-- `ChunkAssembler.assemble()`: gate on completeness, concatenate in index
order, gate on the whole-file digest; `.ok bytes` means `writeFile(outputPath,
bytes)` is performed, every `.error` path performs no write. -/
def AsmState.assemble (a : AsmState) : Except AsmError (List Nat) :=
  if ¬ a.isComplete then .error (.missingChunks a.getMissingChunks)
  else
    match collectChunks a a.totalChunks with
    | .error e => .error e
    | .ok bufs =>
      let combined := bufs.flatten
      let actualHash := sha256 combined
      if actualHash ≠ a.expectedHash then
        .error (.hashMismatch a.expectedHash actualHash)
      else .ok combined

/-! ## Message protocol (`protocol.ts`) -/

/-- Transfer direction. -/
inductive Direction where
  | send
  | receive
deriving DecidableEq, Repr

/-- `TransferState` from `protocol.ts`. -/
inductive TransferState where
  | pending
  | accepted
  | rejected
  | transferring
  | completing
  | completed
  | failed
  | cancelled
deriving DecidableEq, Repr

/-- The seven payload variants of `protocol.ts`; the variant determines the
envelope's `type` tag.  Chunk bytes are carried raw (Base64 transport encoding
abstracted away), digests as `Nat` model digests. -/
inductive Payload where
  | offer (filename : String) (size : Nat) (mimeType : String) (hash : Nat)
      (chunkSize : Nat) (totalChunks : Nat) (secret : Option String)
      (secretTTL : Option Nat) (resumeFrom : Option Nat)
  | accept (ready : Bool) (resumeFrom : Option Nat)
  | reject (reason : String)
  | chunk (index : Int) (data : List Nat) (hash : Nat)
  | ack (index : Int) (received : Bool) (error : Option String)
  | complete (totalChunks : Nat) (hash : Nat)
  | error (code : String) (message : String) (recoverable : Bool)
deriving DecidableEq, Repr

/-- `OCFT_VERSION`. -/
def OCFT_VERSION : String := "1.0"

/-- `OCFTMessage` envelope (`from` is called `fromId` here; the `type` tag is
the payload's variant). -/
structure Msg where
  version : String
  transferId : String
  fromId : String
  toId : String
  timestamp : Nat
  payload : Payload
deriving DecidableEq, Repr

/-- `createMessage(type, transferId, from, to, payload)`: stamps the fixed
version and the current time. -/
def createMessage (transferId fromId toId : String) (now : Nat)
    (payload : Payload) : Msg :=
  { version := OCFT_VERSION, transferId := transferId, fromId := fromId,
    toId := toId, timestamp := now, payload := payload }

/-- Incoming chat text, at the level of detail `handleMessage` inspects it:
either it lacks the `OCFT_PREFIX` marker, or it carries the marker and
Base64+JSON-decodes to a message, or it carries the marker but fails to decode
(`decodeFromChat` yields `null`). -/
inductive ChatText where
  | plain (s : String)
  | encoded (m : Msg)
  | garbled (s : String)
deriving DecidableEq, Repr

/-- `text.startsWith(OCFT_PREFIX)`. -/
def hasMarker : ChatText → Bool
  | .plain _ => false
  | .encoded _ => true
  | .garbled _ => true

/-- `decodeFromChat`: the decoded message, or `none` for foreign or malformed
text. -/
def decodeFromChat : ChatText → Option Msg
  | .plain _ => none
  | .encoded m => some m
  | .garbled _ => none

/-! ## Transfer engine (`transfer.ts`) -/

/-- `TrustedPeer`. -/
structure TrustedPeer where
  id : String
  secret : String
  name : Option String
  expiresAt : Option Nat
deriving DecidableEq, Repr

/-- `TransferManagerConfig` after the constructor applied its defaults
(`autoAccept: false`, `trustedPeers: []`, `maxFileSize: 100 MiB`,
`chunkSize: DEFAULT_CHUNK_SIZE`).  `maxFileSize = 0` behaves as no limit and
`secretTTL = some 0` as no TTL, mirroring the JavaScript falsiness tests. -/
structure Cfg where
  botId : String
  secret : String
  secretTTL : Option Nat
  downloadDir : String
  autoAccept : Bool
  trustedPeers : List TrustedPeer
  maxFileSize : Nat
  chunkSize : Nat
deriving DecidableEq, Repr

/-- `TransferInfo` from `protocol.ts` (`resumable` is the extra field
`transfer.ts` writes on accepted transfers; it starts out unset/false).
`receivedChunks` is the `Set<number>` in insertion order; it holds `Int`
because stray ack indices, including `-1`, land in it unchecked. -/
structure TransferInfo where
  id : String
  direction : Direction
  state : TransferState
  peerId : String
  filename : String
  size : Nat
  mimeType : String
  hash : Nat
  chunkSize : Nat
  totalChunks : Nat
  receivedChunks : List Int
  startedAt : Nat
  updatedAt : Nat
  completedAt : Option Nat
  error : Option String
  localPath : Option String
  resumable : Bool
deriving DecidableEq, Repr

/-- The three private maps of `TransferManager`: `transfers`, `assemblers`,
`filePaths`. -/
structure EngineState where
  transfers : List (String × TransferInfo)
  assemblers : List (String × AsmState)
  filePaths : List (String × String)
deriving DecidableEq, Repr

/-- The empty engine. -/
def EngineState.init : EngineState := ⟨[], [], []⟩

/-- One outbound `sendMessage(to, encoded)` call, with the message kept
structured (encoding abstracted). -/
abbrev Sent := String × Msg

/-- Host file system: the bytes `readFile` yields at a path. -/
abbrev Fs := String → List Nat

/-- Rendering of an `AsmError` to the string stored in `TransferInfo.error`
(mirrors the interpolated strings of `chunker.ts`). -/
def asmErrorText : AsmError → String
  | .missingChunks idxs =>
    "Missing chunks: " ++ String.intercalate ", " (idxs.map toString)
  | .missingChunk i => "Missing chunk " ++ toString i
  | .hashMismatch e a =>
    "File hash mismatch: expected " ++ toString e ++ ", got " ++ toString a

/-- `isValidSecret(secret, secretTTL)`: falsy or mismatched secret fails; a
truthy TTL strictly in the past fails; otherwise valid. -/
def isValidSecret (cfg : Cfg) (now : Nat) (secret : Option String)
    (secretTTL : Option Nat) : Bool :=
  match secret with
  | none => false
  | some s =>
    if s = "" then false
    else if s ≠ cfg.secret then false
    else
      match secretTTL with
      | none => true
      | some ttl => if ttl ≠ 0 ∧ now > ttl then false else true

/-- `isPeerTrustValid(peer)`. -/
def isPeerTrustValid (now : Nat) (peer : TrustedPeer) : Bool :=
  match peer.expiresAt with
  | none => true
  | some e => if e = 0 then true else decide (now < e)

/-- `getPeerSecret(peerId)`. -/
def getPeerSecret (cfg : Cfg) (peerId : String) : Option String :=
  ((cfg.trustedPeers.find? (fun p => p.id = peerId)).map (fun p => p.secret))

/-- The `secretTTL` stamp placed in outgoing offers:
`config.secretTTL ? Date.now() + config.secretTTL : undefined`. -/
def secretTTLStamp (cfg : Cfg) (now : Nat) : Option Nat :=
  match cfg.secretTTL with
  | none => none
  | some t => if t = 0 then none else some (now + t)

/-- `payload.size > (config.maxFileSize || Infinity)`. -/
def sizeExceedsLimit (cfg : Cfg) (size : Nat) : Bool :=
  if cfg.maxFileSize = 0 then false else decide (size > cfg.maxFileSize)

/-- `sendNextChunk(transferId, index)`: read the chunk at `index` from the
local file and emit a `chunk` message; a missing transfer or file path is a
no-op. -/
def sendNextChunk (cfg : Cfg) (fs : Fs) (now : Nat) (st : EngineState)
    (transferId : String) (index : Int) : EngineState × List Sent :=
  match mget st.transfers transferId, mget st.filePaths transferId with
  | some transfer, some filePath =>
    let chunk := readChunk (fs filePath) index transfer.chunkSize
    let chunkMsg := createMessage transferId cfg.botId transfer.peerId now
      (.chunk chunk.index chunk.data chunk.hash)
    (st, [(transfer.peerId, chunkMsg)])
  | _, _ => (st, [])

/-- `acceptTransfer(transferId, resumeFrom)`: only a pending receive-direction
transfer may be accepted; transitions it to `accepted`, creates the assembler
at `downloadDir/filename`, and sends `accept`. -/
def acceptTransfer (cfg : Cfg) (now : Nat) (st : EngineState)
    (transferId : String) (resumeFrom : Option Nat) :
    Except String (EngineState × List Sent) :=
  match mget st.transfers transferId with
  | none => .error "Invalid transfer or already processed"
  | some transfer =>
    if transfer.direction ≠ .receive ∨ transfer.state ≠ .pending then
      .error "Invalid transfer or already processed"
    else
      let outputPath := cfg.downloadDir ++ "/" ++ transfer.filename
      let t2 := { transfer with
        state := .accepted, updatedAt := now,
        resumable := true, localPath := some outputPath }
      let asm := AsmState.new outputPath transfer.hash transfer.totalChunks
      let acceptMsg := createMessage transferId cfg.botId transfer.peerId now
        (.accept true resumeFrom)
      .ok ({ st with
             transfers := mset st.transfers transferId t2,
             assemblers := mset st.assemblers transferId asm },
           [(transfer.peerId, acceptMsg)])

/-- `rejectTransfer(transferId, reason)`. -/
def rejectTransfer (cfg : Cfg) (now : Nat) (st : EngineState)
    (transferId reason : String) : Except String (EngineState × List Sent) :=
  match mget st.transfers transferId with
  | none => .error "Invalid transfer or already processed"
  | some transfer =>
    if transfer.direction ≠ .receive ∨ transfer.state ≠ .pending then
      .error "Invalid transfer or already processed"
    else
      let t2 := { transfer with
        state := .rejected, updatedAt := now, error := some reason }
      let rejectMsg := createMessage transferId cfg.botId transfer.peerId now
        (.reject reason)
      .ok ({ st with transfers := mset st.transfers transferId t2 },
           [(transfer.peerId, rejectMsg)])

/-- `sendFile(peerId, filePath)`: create a pending send-direction transfer and
send the offer (the `nanoid`-generated transfer id is a parameter). -/
def sendFile (cfg : Cfg) (fs : Fs) (now : Nat) (st : EngineState)
    (peerId filePath transferId : String) : EngineState × List Sent :=
  let fileInfo := getFileInfo filePath (fs filePath) cfg.chunkSize
  let transfer : TransferInfo :=
    { id := transferId, direction := .send, state := .pending
      peerId := peerId, filename := fileInfo.filename, size := fileInfo.size
      mimeType := fileInfo.mimeType, hash := fileInfo.hash
      chunkSize := fileInfo.chunkSize, totalChunks := fileInfo.totalChunks
      receivedChunks := [], startedAt := now, updatedAt := now
      completedAt := none, error := none, localPath := some filePath
      resumable := false }
  let offerMsg := createMessage transferId cfg.botId peerId now
    (.offer fileInfo.filename fileInfo.size fileInfo.mimeType fileInfo.hash
      fileInfo.chunkSize fileInfo.totalChunks (getPeerSecret cfg peerId)
      (secretTTLStamp cfg now) none)
  ({ st with
     transfers := mset st.transfers transferId transfer,
     filePaths := mset st.filePaths transferId filePath },
   [(peerId, offerMsg)])

/-- `handleOffer(msg)`: size gate (reject without tracking), then track a
fresh pending receive transfer, then auto-accept by secret, else by the legacy
trusted-peer list. -/
def handleOffer (cfg : Cfg) (now : Nat) (st : EngineState) (m : Msg)
    (filename : String) (size : Nat) (mimeType : String)
    (hash chunkSize totalChunks : Nat) (secret : Option String)
    (secretTTL resumeFrom : Option Nat) : EngineState × List Sent :=
  if sizeExceedsLimit cfg size then
    (st, [(m.fromId, createMessage m.transferId cfg.botId m.fromId now
      (.reject ("File too large: " ++ toString size ++ " bytes exceeds limit")))])
  else
    let transfer : TransferInfo :=
      { id := m.transferId, direction := .receive, state := .pending
        peerId := m.fromId, filename := filename, size := size
        mimeType := mimeType, hash := hash, chunkSize := chunkSize
        totalChunks := totalChunks, receivedChunks := []
        startedAt := now, updatedAt := now, completedAt := none
        error := none, localPath := none, resumable := false }
    let st1 := { st with transfers := mset st.transfers m.transferId transfer }
    if isValidSecret cfg now secret secretTTL then
      match acceptTransfer cfg now st1 m.transferId resumeFrom with
      | .ok r => r
      | .error _ => (st1, [])
    else if cfg.autoAccept then
      match cfg.trustedPeers.find? (fun p => p.id = m.fromId) with
      | some peer =>
        if isPeerTrustValid now peer then
          match acceptTransfer cfg now st1 m.transferId resumeFrom with
          | .ok r => r
          | .error _ => (st1, [])
        else (st1, [])
      | none => (st1, [])
    else (st1, [])

/-- `handleAccept(msg)`: for any tracked send-direction transfer, in whatever
state, transition to `transferring` and send the chunk at the resume index
(default 0). -/
def handleAccept (cfg : Cfg) (fs : Fs) (now : Nat) (st : EngineState)
    (m : Msg) (resumeFrom : Option Nat) : EngineState × List Sent :=
  match mget st.transfers m.transferId with
  | none => (st, [])
  | some transfer =>
    if transfer.direction ≠ .send then (st, [])
    else
      let t2 := { transfer with state := .transferring, updatedAt := now }
      let st1 := { st with transfers := mset st.transfers m.transferId t2 }
      let startIndex : Nat := resumeFrom.getD 0
      sendNextChunk cfg fs now st1 m.transferId (startIndex : Int)

/-- `handleReject(msg)`. -/
def handleReject (now : Nat) (st : EngineState) (m : Msg) (reason : String) :
    EngineState × List Sent :=
  match mget st.transfers m.transferId with
  | none => (st, [])
  | some transfer =>
    ({ st with
        transfers := mset st.transfers m.transferId
          { transfer with
            state := .rejected, error := some reason, updatedAt := now } },
     [])

/-- `handleChunk(msg)`: receiver side; feed the assembler, record the index on
success, always ack with the outcome. -/
def handleChunk (cfg : Cfg) (now : Nat) (st : EngineState) (m : Msg)
    (index : Int) (data : List Nat) (hash : Nat) : EngineState × List Sent :=
  match mget st.transfers m.transferId with
  | none => (st, [])
  | some transfer =>
    if transfer.direction ≠ .receive then (st, [])
    else
      match mget st.assemblers m.transferId with
      | none => (st, [])
      | some asm =>
        let r := asm.addChunk index data hash
        let t2 := { transfer with
          state := .transferring,
          receivedChunks :=
            if r.2 then sadd transfer.receivedChunks index
            else transfer.receivedChunks,
          updatedAt := now }
        let ackMsg := createMessage m.transferId cfg.botId m.fromId now
          (.ack index r.2 (if r.2 then none else some "Hash mismatch"))
        ({ st with
           transfers := mset st.transfers m.transferId t2,
           assemblers := mset st.assemblers m.transferId r.1 },
         [(m.fromId, ackMsg)])

/-- `handleAck(msg)`: sender side.  In `completed`/`completing` only the final
`index = -1` ack does anything (it finalizes to `completed`); a nack resends
the same index; an ack records the index and either sends the next chunk or
transitions to `completing` and sends `complete`. -/
def handleAck (cfg : Cfg) (fs : Fs) (now : Nat) (st : EngineState) (m : Msg)
    (index : Int) (received : Bool) : EngineState × List Sent :=
  match mget st.transfers m.transferId with
  | none => (st, [])
  | some transfer =>
    if transfer.direction ≠ .send then (st, [])
    else if transfer.state = .completed ∨ transfer.state = .completing then
      if index = -1 then
        ({ st with
            transfers := mset st.transfers m.transferId
              { transfer with
                state := .completed, completedAt := some now } },
         [])
      else (st, [])
    else if ¬ received then
      sendNextChunk cfg fs now st m.transferId index
    else
      let t2 := { transfer with
                  receivedChunks := sadd transfer.receivedChunks index
                  updatedAt := now }
      let st1 := { st with transfers := mset st.transfers m.transferId t2 }
      let nextIndex := index + 1
      if nextIndex < (transfer.totalChunks : Int) then
        sendNextChunk cfg fs now st1 m.transferId nextIndex
      else
        let t3 := { t2 with state := .completing }
        let completeMsg := createMessage m.transferId cfg.botId
          transfer.peerId now (.complete transfer.totalChunks transfer.hash)
        ({ st1 with transfers := mset st1.transfers m.transferId t3 },
         [(transfer.peerId, completeMsg)])

/-- `handleComplete(msg)`: receiver side; run `assemble` and report the
outcome in the final `index = -1` ack.  An `.ok` assembly stands for the
`writeFile` of the combined bytes. -/
def handleComplete (cfg : Cfg) (now : Nat) (st : EngineState) (m : Msg) :
    EngineState × List Sent :=
  match mget st.transfers m.transferId with
  | none => (st, [])
  | some transfer =>
    if transfer.direction ≠ .receive then (st, [])
    else
      match mget st.assemblers m.transferId with
      | none => (st, [])
      | some asm =>
        let result := asm.assemble
        let t2 :=
          match result with
          | .ok _ => { transfer with
              state := .completed, completedAt := some now, updatedAt := now }
          | .error e => { transfer with
              state := .failed, error := some (asmErrorText e),
              updatedAt := now }
        let ackMsg := createMessage m.transferId cfg.botId m.fromId now
          (.ack (-1) result.toBool
            (match result with
             | .ok _ => none
             | .error e => some (asmErrorText e)))
        ({ st with transfers := mset st.transfers m.transferId t2 },
         [(m.fromId, ackMsg)])

/-- `handleError(msg)`. -/
def handleErrorMsg (now : Nat) (st : EngineState) (m : Msg)
    (message : String) : EngineState × List Sent :=
  match mget st.transfers m.transferId with
  | none => (st, [])
  | some transfer =>
    ({ st with
        transfers := mset st.transfers m.transferId
          { transfer with
            state := .failed, error := some message, updatedAt := now } },
     [])

/-- `handleMessage(fromId, text)`: marker gate, decode gate, addressing gate
(all three return `false`), then dispatch on the payload variant and return
`true`. -/
def handleMessage (cfg : Cfg) (fs : Fs) (now : Nat) (st : EngineState)
    (fromId : String) (text : ChatText) : EngineState × List Sent × Bool :=
  let _ := fromId
  if ¬ hasMarker text then (st, [], false)
  else
    match decodeFromChat text with
    | none => (st, [], false)
    | some m =>
      if m.toId ≠ cfg.botId then (st, [], false)
      else
        match m.payload with
        | .offer fn sz mt h cs tc sec ttl rf =>
          let r := handleOffer cfg now st m fn sz mt h cs tc sec ttl rf
          (r.1, r.2, true)
        | .accept _ rf =>
          let r := handleAccept cfg fs now st m rf
          (r.1, r.2, true)
        | .reject reason =>
          let r := handleReject now st m reason
          (r.1, r.2, true)
        | .chunk i d h =>
          let r := handleChunk cfg now st m i d h
          (r.1, r.2, true)
        | .ack i rec _ =>
          let r := handleAck cfg fs now st m i rec
          (r.1, r.2, true)
        | .complete _ _ =>
          let r := handleComplete cfg now st m
          (r.1, r.2, true)
        | .error _ msg _ =>
          let r := handleErrorMsg now st m msg
          (r.1, r.2, true)

/-- `Math.max(...receivedChunks, -1)`. -/
def maxReceived (l : List Int) : Int := l.foldl max (-1)

/-- `resumeTransfer(transferId)`. -/
def resumeTransfer (cfg : Cfg) (now : Nat) (st : EngineState)
    (transferId : String) : Except String (EngineState × List Sent) :=
  match mget st.transfers transferId with
  | none => .error "Transfer not found"
  | some transfer =>
    if transfer.state = .completed then .error "Transfer already completed"
    else if transfer.direction = .receive then
      let lastChunk := maxReceived transfer.receivedChunks
      let t2 := { transfer with state := .pending }
      let st1 := { st with transfers := mset st.transfers transferId t2 }
      acceptTransfer cfg now st1 transferId (some (lastChunk + 1).toNat)
    else
      let lastAcked := maxReceived transfer.receivedChunks
      match mget st.filePaths transferId with
      | none => .error "File path not found"
      | some _ =>
        let offerMsg := createMessage transferId cfg.botId transfer.peerId now
          (.offer transfer.filename transfer.size transfer.mimeType
            transfer.hash transfer.chunkSize transfer.totalChunks
            (getPeerSecret cfg transfer.peerId) (secretTTLStamp cfg now)
            (some (lastAcked + 1).toNat))
        let t2 := { transfer with state := .pending }
        .ok ({ st with transfers := mset st.transfers transferId t2 },
             [(transfer.peerId, offerMsg)])

/-! ## Derived definitions used by the verification -/

/-- Modelled from the spec (for claim C8 only): `readChunk` as §4.1 words it,
"fails with `IndexError` if `index` is out of the valid range implied by file
size" — for comparison against the source's total `readChunk`. -/
def readChunkSpec (f : List Nat) (index chunkSize : Nat) :
    Except String Chunk :=
  if index < ceilDiv f.length chunkSize then
    .ok (readChunk f (index : Int) chunkSize)
  else .error "IndexError"

/-- One sender-side feed step: add to the assembler the chunk `readChunk`
produces for index `i`. -/
def feedStep (f : List Nat) (c : Nat) (a : AsmState) (i : Nat) : AsmState :=
  (a.addChunk (readChunk f (i : Int) c).index (readChunk f (i : Int) c).data
    (readChunk f (i : Int) c).hash).1

/-- Feed a fresh assembler every chunk `readChunk` produces for the file, in
index order. -/
def feedAll (f : List Nat) (c : Nat) (o : String) : AsmState :=
  (List.range (ceilDiv f.length c)).foldl (feedStep f c)
    (AsmState.new o (sha256 f) (ceilDiv f.length c))

/-- Closed form of `feedAll`: all chunks stored, keyed in index order. -/
def feedTarget (f : List Nat) (c : Nat) (o : String) : AsmState :=
  { outputPath := o, expectedHash := sha256 f
    totalChunks := ceilDiv f.length c
    chunks := (List.range (ceilDiv f.length c)).map
      (fun i : Nat => ((i : Int), (readChunk f (i : Int) c).data)) }

/-- Local calls and incoming texts the engine reacts to, each stamped with the
`Date.now()` value in effect when it runs. -/
inductive EngAct where
  | recv (fromId : String) (text : ChatText) (now : Nat)
  | sendF (peerId filePath transferId : String) (now : Nat)
  | acceptT (transferId : String) (resumeFrom : Option Nat) (now : Nat)
  | rejectT (transferId reason : String) (now : Nat)
  | resumeT (transferId : String) (now : Nat)

/-- State transition for one action (a local call that throws leaves the state
unchanged, mirroring the exception propagating out of the engine). -/
def engStep (cfg : Cfg) (fs : Fs) (st : EngineState) : EngAct → EngineState
  | .recv fromId text now => (handleMessage cfg fs now st fromId text).1
  | .sendF p fp tid now => (sendFile cfg fs now st p fp tid).1
  | .acceptT tid r now =>
    match acceptTransfer cfg now st tid r with
    | .ok res => res.1
    | .error _ => st
  | .rejectT tid reason now =>
    match rejectTransfer cfg now st tid reason with
    | .ok res => res.1
    | .error _ => st
  | .resumeT tid now =>
    match resumeTransfer cfg now st tid with
    | .ok res => res.1
    | .error _ => st

/-- An action is index-bounded at a state: any chunk or ack it delivers for a
tracked transfer carries an index inside `[0, totalChunks)`. -/
def BoundedAct (st : EngineState) (a : EngAct) : Prop :=
  ∀ fromId m now (i : Int), a = .recv fromId (.encoded m) now →
    ((∃ d hsh, m.payload = .chunk i d hsh)
      ∨ ∃ recv err, m.payload = .ack i recv err) →
    ∀ t, mget st.transfers m.transferId = some t →
      0 ≤ i ∧ i < (t.totalChunks : Int)

/-- Every tracked transfer's `receivedChunks` is duplicate-free and holds only
indices inside `[0, totalChunks)`. -/
def RecInv (st : EngineState) : Prop :=
  ∀ tid t, mget st.transfers tid = some t →
    t.receivedChunks.Nodup ∧
      ∀ x ∈ t.receivedChunks, 0 ≤ x ∧ x < (t.totalChunks : Int)

/-- Runs of the engine in which every delivered chunk/ack index is in range
for its transfer at the moment it is handled. -/
inductive BoundedRun (cfg : Cfg) (fs : Fs) : EngineState → EngineState → Prop
  | refl (st : EngineState) : BoundedRun cfg fs st st
  | step (st st1 : EngineState) (a : EngAct) : BoundedRun cfg fs st st1 →
      BoundedAct st1 a → BoundedRun cfg fs st (engStep cfg fs st1 a)

/-- Sender-side transfer record while the stop-and-wait loop runs. -/
def trMid (t0 : TransferInfo) (now : Nat) (r : List Int) : TransferInfo :=
  { t0 with state := .transferring, updatedAt := now, receivedChunks := r }

/-- Sender-side transfer record right after the last chunk is acknowledged. -/
def trFin (t0 : TransferInfo) (now : Nat) (r : List Int) : TransferInfo :=
  { t0 with state := .completing, updatedAt := now, receivedChunks := r }

/-- The in-order `received:true` ack for chunk `i`, as chat text. -/
def ackText (tid peer bot : String) (now : Nat) (i : Int) : ChatText :=
  .encoded (createMessage tid peer bot now (.ack i true none))

/-- The `chunk i` message `sendNextChunk` emits for a file with bytes `fp`. -/
def chunkSend (cfg : Cfg) (tid peer : String) (now : Nat) (fp : List Nat)
    (c : Nat) (i : Int) : Sent :=
  (peer, createMessage tid cfg.botId peer now
    (.chunk i (readChunk fp i c).data (readChunk fp i c).hash))

/-- The `complete` message the sender emits after the last ack. -/
def completeSend (cfg : Cfg) (tid peer : String) (now : Nat) (N hash : Nat) :
    Sent :=
  (peer, createMessage tid cfg.botId peer now (.complete N hash))

/-- Feed a list of incoming texts one by one, recording each step's outbound
messages separately. -/
def runRecvSteps (cfg : Cfg) (fs : Fs) (now : Nat) (fromId : String) :
    EngineState → List ChatText → EngineState × List (List Sent)
  | st, [] => (st, [])
  | st, t :: ts =>
    let r := handleMessage cfg fs now st fromId t
    let rest := runRecvSteps cfg fs now fromId r.1 ts
    (rest.1, r.2.1 :: rest.2)

/-! ## Concrete fixtures (used in witnesses and counterexamples) -/

/-- A small node configuration. -/
def exCfg : Cfg :=
  { botId := "B", secret := "s", secretTTL := none, downloadDir := "dl"
    autoAccept := false, trustedPeers := [], maxFileSize := 1000000
    chunkSize := 1 }

/-- A three-byte file at every path. -/
def exFs3 : Fs := fun _ => [10, 20, 30]

/-- A two-byte file at every path. -/
def exFs2 : Fs := fun _ => [10, 20]

/-- An assembler holding 2 of 3 chunks. -/
def asmTwoOfThree : AsmState :=
  { outputPath := "out", expectedHash := 0, totalChunks := 3
    chunks := [(0, [1]), (1, [2])] }

/-- An assembler missing chunks 0 and 2 of 3. -/
def asmMissing : AsmState :=
  { outputPath := "out", expectedHash := 0, totalChunks := 3
    chunks := [(1, [2])] }

/-- An offer for a 1-byte, 1-chunk file carrying the receiver's secret. -/
def c3Offer : Msg :=
  createMessage "t" "P" "B" 0 (.offer "f" 1 "m" 99 1 1 (some "s") none none)

/-- A chunk message for transfer `t` with an honestly computed digest. -/
def c3Chunk (i : Int) (d : List Nat) : Msg :=
  createMessage "t" "P" "B" 0 (.chunk i d (sha256 d))

/-- The receive-transfer record created and auto-accepted for `c3Offer`. -/
def c3AcceptedT : TransferInfo :=
  { id := "t", direction := .receive, state := .accepted, peerId := "P"
    filename := "f", size := 1, mimeType := "m", hash := 99, chunkSize := 1
    totalChunks := 1, receivedChunks := [], startedAt := 0, updatedAt := 0
    completedAt := none, error := none, localPath := some "dl/f"
    resumable := true }

/-- Engine state after auto-accepting `c3Offer` and ingesting chunks with
indices 0 and 1 — one more chunk than the transfer has. -/
def c3State : EngineState :=
  (handleMessage exCfg exFs3 0
    (handleMessage exCfg exFs3 0
      (handleMessage exCfg exFs3 0 EngineState.init "P" (.encoded c3Offer)).1
      "P" (.encoded (c3Chunk 0 [7]))).1
    "P" (.encoded (c3Chunk 1 [8]))).1

/-- An offer whose `secretTTL` equals the receive time exactly. -/
def c5Offer : Msg :=
  createMessage "t" "P" "B" 100
    (.offer "f" 3 "m" 7 1 3 (some "s") (some 100) none)

/-- Sender state after offering the two-chunk file `[10, 20]`. -/
def c6Offered : EngineState :=
  (sendFile exCfg exFs2 0 EngineState.init "P" "f.bin" "t").1

/-- The transfer record `sendFile` creates inside `c6Offered`. -/
def c2Transfer : TransferInfo :=
  { id := "t", direction := .send, state := .pending, peerId := "P"
    filename := "f.bin", size := 2, mimeType := "application/octet-stream"
    hash := sha256 [10, 20], chunkSize := 1, totalChunks := 2
    receivedChunks := [], startedAt := 0, updatedAt := 0, completedAt := none
    error := none, localPath := some "f.bin", resumable := false }

/-- A sender engine tracking `c2Transfer` directly (fields spelled out, so
kernel evaluation never has to run the string-splitting of `getFileInfo`). -/
def c2State : EngineState :=
  { transfers := [("t", c2Transfer)], assemblers := []
    filePaths := [("t", "f.bin")] }

/-- The same sender after its offer was rejected (terminal `rejected`). -/
def c6Rejected : EngineState :=
  (handleMessage exCfg exFs2 0 c6Offered "P"
    (.encoded (createMessage "t" "P" "B" 0 (.reject "no")))).1

/-- A protocol message addressed to node `X`, not to `exCfg`'s node `B`. -/
def c7Foreign : Msg := createMessage "t" "P" "X" 0 (.reject "r")

/-- A finished (`completed`) send-direction transfer of 2 chunks. -/
def c10Transfer : TransferInfo :=
  { id := "t", direction := .send, state := .completed, peerId := "P"
    filename := "f", size := 2, mimeType := "m", hash := 5, chunkSize := 1
    totalChunks := 2, receivedChunks := [0, 1], startedAt := 0, updatedAt := 0
    completedAt := some 0, error := none, localPath := some "f.bin"
    resumable := false }

/-- Engine tracking the finished transfer, file still on disk. -/
def c10State : EngineState :=
  { transfers := [("t", c10Transfer)], assemblers := []
    filePaths := [("t", "f.bin")] }

/-- A send-direction transfer waiting for the final ack (`completing`). -/
def c6Completing : TransferInfo :=
  { c10Transfer with state := .completing, completedAt := none }

/-- Engine tracking the completing transfer. -/
def c6CompletingSt : EngineState :=
  { transfers := [("t", c6Completing)], assemblers := []
    filePaths := [("t", "f.bin")] }

/-! ## Map and set lemmas -/

theorem mget_nil {κ α : Type} [DecidableEq κ] (k : κ) :
    mget ([] : List (κ × α)) k = none := rfl

theorem mget_cons {κ α : Type} [DecidableEq κ] (q : κ × α) (l : List (κ × α))
    (k2 : κ) : mget (q :: l) k2 = if q.1 = k2 then some q.2 else mget l k2 := by
  by_cases h : q.1 = k2
  · rw [mget, List.find?_cons_of_pos _ (by simpa using h)]
    simp [h]
  · rw [mget, List.find?_cons_of_neg _ (by simpa using h), if_neg h]
    rfl

theorem mset_cons {κ α : Type} [DecidableEq κ] (p : κ × α) (l : List (κ × α))
    (k : κ) (v : α) :
    mset (p :: l) k v =
      if p.1 = k then (k, v) :: l.map (fun q => if q.1 = k then (k, v) else q)
      else p :: mset l k v := by
  by_cases hp : p.1 = k
  · simp [mset, hp]
  · by_cases hl : l.any (fun q => q.1 = k) <;>
      simp [mset, List.any_cons, hp, hl]

theorem mget_mapReplace {κ α : Type} [DecidableEq κ] (l : List (κ × α))
    (k k2 : κ) (v : α) (h : k2 ≠ k) :
    mget (l.map (fun q => if q.1 = k then (k, v) else q)) k2 = mget l k2 := by
  induction l with
  | nil => rfl
  | cons q l ih =>
    by_cases hq : q.1 = k
    · have hq2 : ¬ q.1 = k2 := by rw [hq]; exact fun e => h e.symm
      simp only [List.map_cons, if_pos hq, mget_cons]
      rw [if_neg (fun e : k = k2 => h e.symm), if_neg hq2, ih]
    · simp only [List.map_cons, if_neg hq, mget_cons]
      rw [ih]

theorem mget_mset {κ α : Type} [DecidableEq κ] (l : List (κ × α)) (k k2 : κ)
    (v : α) : mget (mset l k v) k2 = if k2 = k then some v else mget l k2 := by
  induction l with
  | nil =>
    have hm : mset ([] : List (κ × α)) k v = [(k, v)] := by simp [mset]
    rw [hm, mget_cons, mget_nil]
    by_cases h : k2 = k
    · rw [if_pos h, if_pos h.symm]
    · rw [if_neg h, if_neg (fun e : k = k2 => h e.symm)]
  | cons p l ih =>
    rw [mset_cons]
    by_cases hp : p.1 = k
    · rw [if_pos hp, mget_cons]
      by_cases h : k2 = k
      · rw [if_pos (h.symm), if_pos h]
      · rw [if_neg (fun e : k = k2 => h e.symm), if_neg h,
          mget_mapReplace _ _ _ _ h, mget_cons]
        have : ¬ p.1 = k2 := by rw [hp]; exact fun e => h e.symm
        rw [if_neg this]
    · rw [if_neg hp, mget_cons, ih]
      by_cases hpk2 : p.1 = k2
      · have hk2 : ¬ k2 = k := fun e => hp (by rw [hpk2, e])
        rw [if_pos hpk2, if_neg hk2, mget_cons, if_pos hpk2]
      · rw [if_neg hpk2]
        by_cases h : k2 = k
        · simp [h]
        · rw [if_neg h, if_neg h, mget_cons, if_neg hpk2]

theorem mapReplace_mapReplace {κ α : Type} [DecidableEq κ]
    (l : List (κ × α)) (k : κ) (v w : α) :
    (l.map (fun q => if q.1 = k then (k, v) else q)).map
        (fun q => if q.1 = k then (k, w) else q)
      = l.map (fun q => if q.1 = k then (k, w) else q) := by
  rw [List.map_map]
  apply List.map_congr_left
  intro q _
  by_cases hq : q.1 = k <;> simp [hq]

theorem mset_mset {κ α : Type} [DecidableEq κ] (l : List (κ × α)) (k : κ)
    (v w : α) : mset (mset l k v) k w = mset l k w := by
  induction l with
  | nil => simp [mset]
  | cons p l ih =>
    rw [mset_cons p l k v]
    by_cases hp : p.1 = k
    · rw [if_pos hp, mset_cons, if_pos (rfl : (k, v).1 = k),
        mapReplace_mapReplace, mset_cons, if_pos hp]
    · rw [if_neg hp, mset_cons, if_neg hp, ih, mset_cons, if_neg hp]

theorem mset_of_fresh {κ α : Type} [DecidableEq κ] (l : List (κ × α)) (k : κ)
    (v : α) (h : ∀ q ∈ l, q.1 ≠ k) : mset l k v = l ++ [(k, v)] := by
  have : l.any (fun q => q.1 = k) = false := by
    rw [List.any_eq_false]
    intro q hq
    simpa using h q hq
  simp [mset, this]

theorem mhas_eq_isSome {κ α : Type} [DecidableEq κ] (l : List (κ × α))
    (k : κ) : mhas l k = (mget l k).isSome := by
  rw [Bool.eq_iff_iff]
  simp only [mhas, mget, List.any_eq_true]
  rw [show ((l.find? fun p => decide (p.1 = k)).map fun p => p.2).isSome
        = (l.find? fun p => decide (p.1 = k)).isSome from
      Option.isSome_map]
  rw [List.find?_isSome]

theorem mem_sadd (l : List Int) (x y : Int) :
    y ∈ sadd l x ↔ y = x ∨ y ∈ l := by
  unfold sadd
  split_ifs with hx
  · constructor
    · exact fun h => Or.inr h
    · rintro (rfl | h)
      · exact hx
      · exact h
  · simp [or_comm]

theorem sadd_nodup (l : List Int) (x : Int) (h : l.Nodup) :
    (sadd l x).Nodup := by
  unfold sadd
  split_ifs with hx
  · exact h
  · rw [List.nodup_append]
    refine ⟨h, List.nodup_singleton x, ?_⟩
    intro a ha hb
    rw [List.mem_singleton] at hb
    exact hx (hb ▸ ha)

/-! ## Chunk codec lemmas -/

theorem jsSubarray_ofNat (f : List Nat) (a b : Nat) :
    jsSubarray f (a : Int) (b : Int) = (f.drop a).take (min b f.length - a) := by
  simp only [jsSubarray]
  rw [if_neg (by simp : ¬ ((a : Int) < 0)), if_neg (by simp : ¬ ((b : Int) < 0))]
  rw [show (a : Int) ⊓ (f.length : Int) = ((min a f.length : Nat) : Int) from
      (Nat.cast_min a f.length).symm,
    show (b : Int) ⊓ (f.length : Int) = ((min b f.length : Nat) : Int) from
      (Nat.cast_min b f.length).symm]
  simp only [Int.toNat_natCast, Int.toNat_sub, Nat.cast_lt]
  by_cases ha : a ≤ f.length
  · rw [min_eq_left ha]
    by_cases hab : a < min b f.length
    · rw [if_pos hab]
    · rw [if_neg hab]
      have : min b f.length - a = 0 := by omega
      rw [this, List.take_zero]
  · rw [min_eq_right (le_of_not_le ha)]
    rw [if_neg (by omega : ¬ f.length < min b f.length)]
    rw [List.drop_eq_nil_of_le (by omega), List.take_nil]

theorem readChunk_ofNat (f : List Nat) (i c : Nat) :
    readChunk f (i : Int) c =
      { index := (i : Int)
        data := (f.drop (i * c)).take (min f.length (i * c + c) - i * c)
        hash := sha256 ((f.drop (i * c)).take (min f.length (i * c + c) - i * c)) } := by
  simp only [readChunk]
  have hcast : (i : Int) * (c : Nat) = ((i * c : Nat) : Int) := by push_cast; ring
  have harg : (((i * c : Nat) : Int) + (c : Nat)) ⊓ ((f.length : Nat) : Int)
      = (((min (i * c + c) f.length : Nat)) : Int) := by
    push_cast
    ring_nf
  rw [hcast, harg, jsSubarray_ofNat]
  rw [show min (min (i * c + c) f.length) f.length - i * c
        = min f.length (i * c + c) - i * c by omega]

/-- The data of a produced chunk is also just `take chunkSize` of the tail. -/
theorem readChunk_data_take (f : List Nat) (i c : Nat) :
    (readChunk f (i : Int) c).data = (f.drop (i * c)).take c := by
  rw [readChunk_ofNat]
  by_cases h : i * c ≤ f.length
  · have hlen : (f.drop (i * c)).length = f.length - i * c := List.length_drop _ _
    rcases le_or_lt (i * c + c) f.length with hc | hc
    · rw [min_eq_right hc, Nat.add_sub_cancel_left]
    · rw [min_eq_left (le_of_lt hc)]
      rw [List.take_of_length_le (le_of_eq hlen),
        List.take_of_length_le (show (f.drop (i * c)).length ≤ c by
          rw [hlen]; omega)]
  · rw [List.drop_eq_nil_of_le (by omega), List.take_nil, List.take_nil]

/-! ## Claim C8 — readChunk byte range -/

/-- C8 (amended): for every file, chunk size > 0 and natural index, `readChunk`
returns index `i`, the byte range `[i*chunkSize, min(size, (i+1)*chunkSize))`
and that range's SHA-256; it never fails, and an index at or beyond
`ceil(size/chunkSize)` simply yields the empty range. -/
theorem readChunk_range_total (f : List Nat) (c i : Nat) (hc : 0 < c) :
    (readChunk f (i : Int) c).index = (i : Int)
      ∧ (readChunk f (i : Int) c).data
          = (f.drop (i * c)).take (min f.length ((i + 1) * c) - i * c)
      ∧ (readChunk f (i : Int) c).hash = sha256 ((readChunk f (i : Int) c).data)
      ∧ (ceilDiv f.length c ≤ i → (readChunk f (i : Int) c).data = []) := by
  refine ⟨by rw [readChunk_ofNat], ?_, by rw [readChunk_ofNat], ?_⟩
  · rw [readChunk_ofNat, show (i + 1) * c = i * c + c by ring]
  · intro hi
    have hle : f.length + c - 1 ≤ c * i + (c - 1) :=
      (Nat.div_le_iff_le_mul_add_pred hc).mp hi
    have hcomm : c * i = i * c := Nat.mul_comm c i
    rw [readChunk_data_take, List.drop_eq_nil_of_le (by omega), List.take_nil]

/-- C8 witness: in-range index 1 of a 3-byte file at chunk size 2 yields byte
range `[2, 3)`; out-of-range index 9 yields the empty range, not an error. -/
theorem readChunk_range_total_witness :
    (readChunk [10, 20, 30] ((1 : Nat) : Int) 2).data = [30]
      ∧ (readChunk [10, 20, 30] ((9 : Nat) : Int) 2).data = [] := by
  constructor
  · rw [(readChunk_range_total [10, 20, 30] 2 1 (by decide)).2.1]
    decide
  · exact (readChunk_range_total [10, 20, 30] 2 9 (by decide)).2.2.2 (by decide)

/-- C8 counterexample: the claim says `readChunk` fails with `IndexError` for
an out-of-range index; the source's `readChunk` has no failure path at all —
at index 5 of a 1-byte file with chunk size 1 (valid range `[0,1)`) the
spec-modelled function errors while the source returns an ordinary chunk with
empty data. -/
theorem readChunk_no_index_error :
    readChunkSpec [7] 5 1 = Except.error "IndexError"
      ∧ readChunk [7] (5 : Int) 1 = { index := 5, data := [], hash := sha256 [] } := by
  exact ⟨rfl, by decide⟩

/-! ## Claim C9 — progress percentage -/

/-- C9 counterexample: with 2 of 3 chunks stored, `getProgress` returns 67
(`Math.round`), not `floor(100·2/3) = 66` as the claim states. -/
theorem getProgress_not_floor :
    asmTwoOfThree.getProgress
      ≠ 100 * asmTwoOfThree.chunks.length / asmTwoOfThree.totalChunks := by
  decide

/-- C9 (amended): for every assembler with `totalChunks > 0`, `getProgress`
returns `100·count/totalChunks` rounded to the nearest integer, halves up
(`Math.round`), i.e. `⌊100·count/total + 1/2⌋`. -/
theorem getProgress_rounds (a : AsmState) (ht : 0 < a.totalChunks) :
    a.getProgress
      = ⌊100 * (a.chunks.length : ℚ) / (a.totalChunks : ℚ) + 1 / 2⌋₊ := by
  have h0 : ((a.totalChunks : ℚ)) ≠ 0 := Nat.cast_ne_zero.mpr ht.ne'
  have key : 100 * (a.chunks.length : ℚ) / (a.totalChunks : ℚ) + 1 / 2
      = ((200 * a.chunks.length + a.totalChunks : ℕ) : ℚ)
          / ((2 * a.totalChunks : ℕ) : ℚ) := by
    push_cast
    field_simp
    ring
  rw [AsmState.getProgress, key, Nat.floor_div_eq_div]

/-- C9 witness: the rounding theorem applied to the 2-of-3 assembler. -/
theorem getProgress_rounds_witness :
    asmTwoOfThree.getProgress
      = ⌊100 * (asmTwoOfThree.chunks.length : ℚ)
            / (asmTwoOfThree.totalChunks : ℚ) + 1 / 2⌋₊ :=
  getProgress_rounds asmTwoOfThree (by decide)

/-! ## Claim C4 — assemble completeness and hash gate -/

theorem collectChunks_ok_isSome (a : AsmState) :
    ∀ n bufs, collectChunks a n = .ok bufs →
      ∀ i, i < n → (mget a.chunks (i : Int)).isSome := by
  intro n
  induction n with
  | zero => intro bufs _ i hi; exact absurd hi (Nat.not_lt_zero i)
  | succ n ih =>
    intro bufs h i hi
    cases hcn : collectChunks a n with
    | error e => simp [collectChunks, hcn] at h
    | ok bufs2 =>
      cases hmg : mget a.chunks (n : Int) with
      | none => simp [collectChunks, hcn, hmg] at h
      | some buf =>
        rcases Nat.lt_succ_iff_lt_or_eq.mp hi with hlt | heq
        · exact ih bufs2 hcn i hlt
        · rw [heq, hmg]; rfl

/-- C4: whenever fewer chunks are stored than expected, `assemble` fails with
an error listing exactly the indices of `[0, totalChunks)` that are missing;
and the output (an `.ok`, standing for the single `writeFile`) is produced
only when every index is present and the digest of the in-order concatenation
equals the expected whole-file digest — every failure writes nothing. -/
theorem assemble_gate (a : AsmState) :
    (a.chunks.length < a.totalChunks →
        a.assemble = .error (.missingChunks a.getMissingChunks)
          ∧ ∀ i : Nat, i ∈ a.getMissingChunks ↔
              (i < a.totalChunks ∧ mget a.chunks (i : Int) = none))
    ∧ ∀ bytes, a.assemble = .ok bytes →
        (∀ i : Nat, i < a.totalChunks → (mget a.chunks (i : Int)).isSome)
          ∧ sha256 bytes = a.expectedHash := by
  constructor
  · intro hlt
    constructor
    · have hic : a.isComplete = false := by
        simp only [AsmState.isComplete, decide_eq_false_iff_not]
        omega
      simp [AsmState.assemble, hic]
    · intro i
      simp [AsmState.getMissingChunks, List.mem_filter, List.mem_range,
        mhas_eq_isSome, Option.not_isSome_iff_eq_none]
  · intro bytes h
    by_cases hcomp : a.isComplete = true
    · cases hcol : collectChunks a a.totalChunks with
      | error e => simp [AsmState.assemble, hcomp, hcol] at h
      | ok bufs =>
        by_cases hh : sha256 bufs.flatten = a.expectedHash
        · simp only [AsmState.assemble, hcomp, hcol, hh] at h
          simp at h
          refine ⟨fun i hi => collectChunks_ok_isSome a _ _ hcol i hi, ?_⟩
          rw [← h, hh]
        · simp [AsmState.assemble, hcomp, hcol, hh] at h
    · simp [AsmState.assemble, hcomp] at h

/-- C4 witness: the gate theorem applied to an assembler holding only chunk 1
of 3 — assembly fails naming exactly indices 0 and 2. -/
theorem assemble_gate_witness :
    asmMissing.assemble = .error (.missingChunks asmMissing.getMissingChunks)
      ∧ (0 ∈ asmMissing.getMissingChunks ↔
          (0 < asmMissing.totalChunks ∧ mget asmMissing.chunks (0 : Int) = none)) := by
  have h := (assemble_gate asmMissing).1 (by decide)
  exact ⟨h.1, h.2 0⟩

/-! ## Claim C1 — chunk/assemble round trip -/

theorem addChunk_matching (a : AsmState) (ch : Chunk)
    (hch : ch.hash = sha256 ch.data) :
    a.addChunk ch.index ch.data ch.hash
      = ({ a with chunks := mset a.chunks ch.index ch.data }, true) := by
  rw [AsmState.addChunk, hch,
    if_neg (show ¬ (sha256 ch.data ≠ sha256 ch.data) from fun hne => hne rfl)]

theorem mget_map_castList (g : Nat → List Nat) (l : List Nat) (i : Nat)
    (h : i ∈ l) :
    mget (l.map (fun j : Nat => ((j : Int), g j))) (i : Int) = some (g i) := by
  induction l with
  | nil => cases h
  | cons j l ih =>
    rw [List.map_cons, mget_cons]
    by_cases hj : j = i
    · have : ((j : Int), g j).1 = (i : Int) := by rw [hj]
      rw [if_pos this, hj]
    · have : ¬ (((j : Int), g j).1 = (i : Int)) :=
        fun e => hj (Nat.cast_inj.mp e)
      rw [if_neg this]
      rcases List.mem_cons.mp h with heq | hmem
      · exact absurd heq.symm hj
      · exact ih hmem

theorem collectChunks_map (a : AsmState) (g : Nat → List Nat) :
    ∀ n : Nat, (∀ i : Nat, i < n → mget a.chunks (i : Int) = some (g i)) →
      collectChunks a n = .ok ((List.range n).map g) := by
  intro n
  induction n with
  | zero => intro _; rfl
  | succ n ih =>
    intro h
    have hstep := h n (Nat.lt_succ_self n)
    have hprev := ih (fun i hi => h i (Nat.lt_succ_of_lt hi))
    simp only [collectChunks, hprev, hstep]
    rw [List.range_succ, List.map_append]
    rfl

theorem flatten_range_chunks (c : Nat) (hc : 0 < c) :
    ∀ n (f : List Nat), ceilDiv f.length c = n →
      ((List.range n).map (fun i => (f.drop (i * c)).take c)).flatten = f := by
  intro n
  induction n with
  | zero =>
    intro f hf
    have hlen : f.length = 0 := by
      by_contra hne
      have h1 : 1 ≤ f.length := Nat.pos_of_ne_zero hne
      have h2 : 1 ≤ (f.length + c - 1) / c :=
        (Nat.one_le_div_iff hc).mpr (by omega)
      rw [ceilDiv] at hf
      omega
    rw [List.eq_nil_of_length_eq_zero hlen]
    rfl
  | succ n ih =>
    intro f hf
    have hdf : ceilDiv (f.drop c).length c = n := by
      rw [List.length_drop]
      rw [ceilDiv] at hf ⊢
      rcases le_or_lt f.length c with hlc | hlc
      · have hd0 : (c - 1) / c = 0 := Nat.div_eq_of_lt (by omega)
        by_cases hlen0 : f.length = 0
        · rw [show f.length + c - 1 = c - 1 by omega] at hf
          omega
        · have h1 : 1 ≤ f.length := Nat.pos_of_ne_zero hlen0
          have hub : (f.length + c - 1) / c ≤ 1 := by
            rw [Nat.div_le_iff_le_mul_add_pred hc]
            omega
          rw [show f.length - c + c - 1 = c - 1 by omega]
          omega
      · rw [show f.length + c - 1 = (f.length - 1) + c by omega,
          Nat.add_div_right _ hc] at hf
        rw [show f.length - c + c - 1 = (f.length - 1 - c) + c by omega,
          Nat.add_div_right _ hc]
        -- (len - 1) / c = n ↔ (len - 1 - c) / c + 1 = n with c < len
        rw [show f.length - 1 = (f.length - 1 - c) + c by omega,
          Nat.add_div_right _ hc] at hf
        omega
    rw [List.range_succ_eq_map, List.map_cons, List.map_map]
    have htail : (List.range n).map ((fun i => (f.drop (i * c)).take c) ∘ Nat.succ)
        = (List.range n).map (fun i => ((f.drop c).drop (i * c)).take c) := by
      apply List.map_congr_left
      intro i _
      simp only [Function.comp]
      rw [List.drop_drop,
        show c + i * c = Nat.succ i * c from by rw [Nat.succ_mul]; omega]
    rw [htail, List.flatten_cons, ih (f.drop c) hdf]
    rw [show (0 : Nat) * c = 0 by ring, List.drop_zero]
    exact List.take_append_drop c f

theorem feed_fold (f : List Nat) (c : Nat) (o : String) (eh tc : Nat) :
    ∀ n, (List.range n).foldl (feedStep f c)
        { outputPath := o, expectedHash := eh, totalChunks := tc, chunks := [] }
      = { outputPath := o, expectedHash := eh, totalChunks := tc
          chunks := (List.range n).map
            (fun i : Nat => ((i : Int), (readChunk f (i : Int) c).data)) } := by
  intro n
  induction n with
  | zero => rfl
  | succ n ih =>
    rw [List.range_succ, List.foldl_append, ih, List.foldl_cons, List.foldl_nil]
    rw [feedStep, addChunk_matching _ _ rfl]
    have hidx : (readChunk f (n : Int) c).index = (n : Int) := rfl
    rw [hidx]
    have hfresh : ∀ q ∈ (List.range n).map
        (fun i : Nat => ((i : Int), (readChunk f (i : Int) c).data)),
        q.1 ≠ (n : Int) := by
      intro q hq
      rcases List.mem_map.mp hq with ⟨i, hi, rfl⟩
      have hin : i < n := List.mem_range.mp hi
      exact fun e => absurd (Nat.cast_inj.mp e) (Nat.ne_of_lt hin)
    rw [mset_of_fresh _ _ _ hfresh]
    rw [List.map_append]
    rfl

/-- C1: for every file and chunk size > 0, feeding a fresh assembler (expected
digest = whole-file digest) every chunk `readChunk` produces, in order, makes
`assemble` succeed and write bytes identical to the original file; hence the
written bytes' SHA-256 equals the original file's SHA-256. -/
theorem chunk_roundtrip (f : List Nat) (c : Nat) (o : String) (hc : 0 < c) :
    (feedAll f c o).assemble = .ok f
      ∧ ∀ bytes, (feedAll f c o).assemble = .ok bytes →
          sha256 bytes = sha256 f := by
  have hA : feedAll f c o = feedTarget f c o := by
    rw [feedAll,
      show AsmState.new o (sha256 f) (ceilDiv f.length c)
        = { outputPath := o, expectedHash := sha256 f
            totalChunks := ceilDiv f.length c, chunks := [] } from rfl,
      feed_fold]
    rfl
  have hok : (feedAll f c o).assemble = .ok f := by
    rw [hA]
    have hcol := collectChunks_map (feedTarget f c o)
      (fun i : Nat => (readChunk f (i : Int) c).data)
      (ceilDiv f.length c)
      (fun i hi => mget_map_castList _ _ _ (List.mem_range.mpr hi))
    have hflat : ((List.range (ceilDiv f.length c)).map
        (fun i : Nat => (readChunk f (i : Int) c).data)).flatten = f := by
      rw [List.map_congr_left
        (fun i _ => readChunk_data_take f i c)]
      exact flatten_range_chunks c hc (ceilDiv f.length c) f rfl
    simp only [feedTarget] at hcol
    simp [feedTarget, AsmState.assemble, AsmState.isComplete, List.length_map,
      List.length_range, hcol, hflat]
  refine ⟨hok, fun bytes hb => ?_⟩
  rw [hok] at hb
  injection hb with h2
  rw [← h2]

/-- C1 witness: the round trip on the 5-byte file `[10, 20, 30, 40, 50]` with
chunk size 2 (3 chunks) reproduces the file exactly. -/
theorem chunk_roundtrip_witness :
    (feedAll [10, 20, 30, 40, 50] 2 "out").assemble
      = Except.ok [10, 20, 30, 40, 50] :=
  (chunk_roundtrip [10, 20, 30, 40, 50] 2 "out" (by decide)).1

/-! ## Claim C7 — handleMessage gates -/

/-- C7 (amended): `handleMessage` returns `false` and changes no state for
text without the protocol marker, for marked text that fails to decode, and —
diverging from the claim, which says `true` — also for a decoded message whose
`to` field names another node. -/
theorem handleMessage_gates (cfg : Cfg) (fs : Fs) (now : Nat)
    (st : EngineState) (fromId : String) :
    (∀ s, handleMessage cfg fs now st fromId (.plain s) = (st, [], false))
      ∧ (∀ s, handleMessage cfg fs now st fromId (.garbled s) = (st, [], false))
      ∧ ∀ m : Msg, m.toId ≠ cfg.botId →
          handleMessage cfg fs now st fromId (.encoded m) = (st, [], false) := by
  refine ⟨fun s => rfl, fun s => rfl, fun m hm => ?_⟩
  simp [handleMessage, hasMarker, decodeFromChat, hm]

/-- C7 witness: the gate theorem applied to a concrete mis-addressed message:
recognized protocol text, addressed to `X`, handled by node `B` — untouched
state, no replies, `false`. -/
theorem handleMessage_gates_witness :
    handleMessage exCfg exFs3 0 EngineState.init "P" (.encoded c7Foreign)
      = (EngineState.init, [], false) :=
  (handleMessage_gates exCfg exFs3 0 EngineState.init "P").2.2 c7Foreign
    (by decide)

/-- C7 counterexample: the claim says a decoded protocol message addressed to
another node makes `handleMessage` return `true`; the source returns `false`
(`if (msg.to !== this.config.botId) return false`). -/
theorem handleMessage_foreign_false :
    (handleMessage exCfg exFs3 0 EngineState.init "P"
        (.encoded c7Foreign)).2.2 = false
      ∧ c7Foreign.toId ≠ exCfg.botId
      ∧ hasMarker (.encoded c7Foreign) = true := by
  exact ⟨rfl, by decide, rfl⟩

/-! ## Claim C10 — accept restarts any send transfer -/

/-- C10: an incoming accept for a tracked send-direction transfer moves it to
`transferring` and emits exactly the chunk at the accept's resume index
(default 0), regardless of the transfer's current state — the handler never
inspects it, so `rejected`, `failed`, `completing` and `completed` transfers
restart too. -/
theorem handleAccept_restarts (cfg : Cfg) (fs : Fs) (now : Nat)
    (st : EngineState) (fromId : String) (m : Msg) (t : TransferInfo)
    (p : String) (ready : Bool) (rf : Option Nat)
    (hm : m.payload = .accept ready rf) (hto : m.toId = cfg.botId)
    (ht : mget st.transfers m.transferId = some t)
    (hdir : t.direction = .send)
    (hp : mget st.filePaths m.transferId = some p) :
    handleMessage cfg fs now st fromId (.encoded m)
      = ({ st with
            transfers := mset st.transfers m.transferId
              { t with state := .transferring, updatedAt := now } },
         [chunkSend cfg m.transferId t.peerId now (fs p) t.chunkSize
            ((rf.getD 0 : Nat) : Int)], true) := by
  simp [handleMessage, hasMarker, decodeFromChat, hto, hm, handleAccept, ht,
    hdir, sendNextChunk, mget_mset, hp, chunkSend]
  rfl

/-- C10 witness: an accept restarts the already-`completed` transfer of
`c10State`: state becomes `transferring` and chunk 0 is sent again. -/
theorem handleAccept_restarts_witness :
    handleMessage exCfg exFs2 7 c10State "P"
        (.encoded (createMessage "t" "P" "B" 7 (.accept true none)))
      = ({ c10State with
            transfers := mset c10State.transfers "t"
              { c10Transfer with state := .transferring, updatedAt := 7 } },
         [chunkSend exCfg "t" c10Transfer.peerId 7 (exFs2 "f.bin")
            c10Transfer.chunkSize ((((none : Option Nat).getD 0 : Nat)) : Int)],
         true) :=
  handleAccept_restarts exCfg exFs2 7 c10State "P"
    (createMessage "t" "P" "B" 7 (.accept true none)) c10Transfer "f.bin"
    true none rfl rfl (by decide) (by decide) (by decide)

/-! ## Claim C5 — secret auto-accept -/

/-- C5 (amended): an in-limit offer is auto-accepted exactly when its secret
is a non-empty string equal to the node's secret and its `secretTTL` is
absent, zero, or not strictly earlier than the current time (expiry is strict:
only `now > TTL` invalidates, so a TTL equal to `now` still accepts); with
legacy auto-accept disabled, an absent/empty/mismatched secret or a nonzero
TTL strictly in the past leaves the transfer `pending`. -/
theorem offer_secret_auto_accept (cfg : Cfg) (fs : Fs) (now : Nat)
    (st : EngineState) (fromId : String) (m : Msg)
    (fn : String) (sz : Nat) (mt : String) (h c tc : Nat)
    (sec : Option String) (ttl rf : Option Nat)
    (hm : m.payload = .offer fn sz mt h c tc sec ttl rf)
    (hto : m.toId = cfg.botId)
    (hsz : sizeExceedsLimit cfg sz = false) :
    ((∃ s, sec = some s ∧ s = cfg.secret ∧ s ≠ ""
        ∧ (ttl = none ∨ ttl = some 0 ∨ ∃ tv, ttl = some tv ∧ now ≤ tv)) →
      (mget (handleMessage cfg fs now st fromId (.encoded m)).1.transfers
          m.transferId).map TransferInfo.state = some .accepted)
    ∧ ((cfg.autoAccept = false
        ∧ (sec = none ∨ sec = some ""
            ∨ (∀ s, sec = some s → s ≠ cfg.secret)
            ∨ ∃ tv, ttl = some tv ∧ tv ≠ 0 ∧ tv < now)) →
      (mget (handleMessage cfg fs now st fromId (.encoded m)).1.transfers
          m.transferId).map TransferInfo.state = some .pending) := by
  constructor
  · rintro ⟨s, rfl, rfl, hs, httl⟩
    have hv : isValidSecret cfg now (some cfg.secret) ttl = true := by
      rcases httl with rfl | rfl | ⟨tv, rfl, htv⟩
      · simp [isValidSecret, hs]
      · simp [isValidSecret, hs]
      · simp [isValidSecret, hs, Nat.not_lt.mpr htv]
    simp [handleMessage, hasMarker, decodeFromChat, hm, hto, hsz, hv,
      handleOffer, acceptTransfer, mget_mset]
  · rintro ⟨hauto, hbad⟩
    have hv : isValidSecret cfg now sec ttl = false := by
      rcases hbad with rfl | rfl | hmis | ⟨tv, rfl, htv0, htv⟩
      · rfl
      · simp [isValidSecret]
      · cases sec with
        | none => rfl
        | some s =>
          have := hmis s rfl
          simp [isValidSecret, this]
      · cases sec with
        | none => rfl
        | some s =>
          by_cases hse : s = ""
          · simp [isValidSecret, hse]
          · by_cases hsm : s = cfg.secret
            · simp [isValidSecret, hse, hsm, htv0, htv]
            · simp [isValidSecret, hse, hsm]
    simp [handleMessage, hasMarker, decodeFromChat, hm, hto, hsz, hv, hauto,
      handleOffer, mget_mset]

/-- C5 witness: a matching fresh secret with a future TTL auto-accepts; a
mismatched secret (auto-accept off) stays pending. -/
theorem offer_secret_auto_accept_witness :
    ((mget (handleMessage exCfg exFs3 100 EngineState.init "P"
        (.encoded (createMessage "t" "P" "B" 100
          (.offer "f" 3 "m" 7 1 3 (some "s") (some 200) none)))).1.transfers
        "t").map TransferInfo.state = some .accepted)
      ∧ ((mget (handleMessage exCfg exFs3 100 EngineState.init "P"
        (.encoded (createMessage "t" "P" "B" 100
          (.offer "f" 3 "m" 7 1 3 (some "zzz") none none)))).1.transfers
        "t").map TransferInfo.state = some .pending) := by
  constructor
  · exact (offer_secret_auto_accept exCfg exFs3 100 EngineState.init "P"
      (createMessage "t" "P" "B" 100
        (.offer "f" 3 "m" 7 1 3 (some "s") (some 200) none))
      "f" 3 "m" 7 1 3 (some "s") (some 200) none rfl rfl (by decide)).1
      ⟨"s", rfl, by decide, by decide, Or.inr (Or.inr ⟨200, rfl, by omega⟩)⟩
  · exact (offer_secret_auto_accept exCfg exFs3 100 EngineState.init "P"
      (createMessage "t" "P" "B" 100
        (.offer "f" 3 "m" 7 1 3 (some "zzz") none none))
      "f" 3 "m" 7 1 3 (some "zzz") none none rfl rfl (by decide)).2
      ⟨rfl, Or.inr (Or.inr (Or.inl (fun s hs => by
        cases hs; decide)))⟩

/-- C5 counterexample: the claim keeps a transfer `pending` when the offer's
`secretTTL` is not strictly later than the current time; at `secretTTL = now =
100` the source auto-accepts (`Date.now() > secretTTL` is false), so the
transfer ends up `accepted`. -/
theorem offer_ttl_boundary_accepts :
    ((mget (handleMessage exCfg exFs3 100 EngineState.init "P"
        (.encoded c5Offer)).1.transfers "t").map TransferInfo.state
      = some .accepted)
      ∧ ¬ (100 < 100) := by
  exact ⟨rfl, by omega⟩

/-! ## Claim C6 — acks in terminal states -/

/-- C6 (amended): for a send-direction transfer in state `completing` or
`completed`, an ack with `index ≠ -1` is ignored outright (state untouched,
nothing sent), and the distinguished final ack `index = -1` only finalizes the
state to `completed`, recording `completedAt` — no chunk is sent and
`receivedChunks` does not change.  (In the other terminal states `rejected`
and `failed` the source processes acks normally, which is why the claim's
blanket "terminal state" wording fails.) -/
theorem ack_in_completing_completed (cfg : Cfg) (fs : Fs) (now : Nat)
    (st : EngineState) (fromId : String) (m : Msg) (t : TransferInfo)
    (i : Int) (recv : Bool) (err : Option String)
    (hm : m.payload = .ack i recv err) (hto : m.toId = cfg.botId)
    (ht : mget st.transfers m.transferId = some t)
    (hdir : t.direction = .send)
    (hst : t.state = .completing ∨ t.state = .completed) :
    (i ≠ -1 → handleMessage cfg fs now st fromId (.encoded m) = (st, [], true))
      ∧ (i = -1 → handleMessage cfg fs now st fromId (.encoded m)
          = ({ st with
                transfers := mset st.transfers m.transferId
                  { t with state := .completed, completedAt := some now } },
             [], true)) := by
  have hterm : (t.state = .completed ∨ t.state = .completing) := hst.symm
  constructor
  · intro hi
    simp [handleMessage, hasMarker, decodeFromChat, hm, hto, handleAck, ht,
      hdir, hterm, hi]
  · intro hi
    simp [handleMessage, hasMarker, decodeFromChat, hm, hto, handleAck, ht,
      hdir, hterm, hi]

/-- C6 witness: on the `completing` transfer of `c6CompletingSt`, a stray ack
for index 5 is a no-op and the final `index = -1` ack finalizes the state. -/
theorem ack_in_completing_completed_witness :
    (handleMessage exCfg exFs2 9 c6CompletingSt "P"
        (.encoded (createMessage "t" "P" "B" 9 (.ack 5 true none)))
      = (c6CompletingSt, [], true))
      ∧ (handleMessage exCfg exFs2 9 c6CompletingSt "P"
          (.encoded (createMessage "t" "P" "B" 9 (.ack (-1) true none)))
        = ({ c6CompletingSt with
              transfers := mset c6CompletingSt.transfers "t"
                { c6Completing with
                  state := .completed, completedAt := some 9 } },
           [], true)) := by
  constructor
  · exact (ack_in_completing_completed exCfg exFs2 9 c6CompletingSt "P"
      (createMessage "t" "P" "B" 9 (.ack 5 true none)) c6Completing 5 true
      none rfl rfl (by decide) (by decide) (Or.inl (by decide))).1 (by decide)
  · exact (ack_in_completing_completed exCfg exFs2 9 c6CompletingSt "P"
      (createMessage "t" "P" "B" 9 (.ack (-1) true none)) c6Completing (-1)
      true none rfl rfl (by decide) (by decide) (Or.inl (by decide))).2 rfl

/-- C6 counterexample: `rejected` is a terminal state, yet the source
processes an ack there as usual — on `c6Rejected` an `ack{index 0, received}`
sends chunk 1 and adds 0 to `receivedChunks`, contradicting the claim that no
terminal-state ack sends a chunk or changes `receivedChunks`. -/
theorem ack_in_rejected_sends_chunk :
    ((mget c6Rejected.transfers "t").map TransferInfo.state = some .rejected)
      ∧ (handleMessage exCfg exFs2 0 c6Rejected "P"
          (.encoded (createMessage "t" "P" "B" 0 (.ack 0 true none)))).2.1
        = [chunkSend exCfg "t" "P" 0 [10, 20] 1 1]
      ∧ ((mget (handleMessage exCfg exFs2 0 c6Rejected "P"
          (.encoded (createMessage "t" "P" "B" 0
            (.ack 0 true none)))).1.transfers "t").map
          TransferInfo.receivedChunks = some [0]) := by
  exact ⟨rfl, rfl, rfl⟩

/-! ## Claim C3 — receivedChunks never exceeds totalChunks -/

/-- C3 counterexample: neither `handleChunk` nor `addChunk` bounds the chunk
index, so after an offer with `totalChunks = 1` is auto-accepted and chunks
with indices 0 and 1 (both with honest digests) are ingested, the tracked
transfer has `receivedChunks = {0, 1}` of size 2 > `totalChunks = 1`. -/
theorem receivedChunks_exceeds_total :
    (mget c3State.transfers "t").map TransferInfo.receivedChunks = some [0, 1]
      ∧ (mget c3State.transfers "t").map TransferInfo.totalChunks = some 1 := by
  exact ⟨rfl, rfl⟩

theorem length_le_of_nodup_bounded (l : List Int) (N : Nat) (hnd : l.Nodup)
    (hbd : ∀ x ∈ l, 0 ≤ x ∧ x < (N : Int)) : l.length ≤ N := by
  have hmap : (l.map Int.toNat).Nodup :=
    List.Nodup.map_on
      (fun x hx y hy e => by
        have hx0 := (hbd x hx).1
        have hy0 := (hbd y hy).1
        omega)
      hnd
  calc l.length = (l.map Int.toNat).length := (List.length_map _ _).symm
    _ = (l.map Int.toNat).toFinset.card :=
        (List.toFinset_card_of_nodup hmap).symm
    _ ≤ (Finset.range N).card := by
        apply Finset.card_le_card
        intro x hx
        rcases List.mem_map.mp (List.mem_toFinset.mp hx) with ⟨y, hy, rfl⟩
        rcases hbd y hy with ⟨h0, hN⟩
        exact Finset.mem_range.mpr (by omega)
    _ = N := Finset.card_range N

theorem recInv_set (st : EngineState) (hinv : RecInv st) (tid : String)
    (t2 : TransferInfo) (st2 : EngineState)
    (hst2 : st2.transfers = mset st.transfers tid t2)
    (h2 : t2.receivedChunks.Nodup
      ∧ ∀ x ∈ t2.receivedChunks, 0 ≤ x ∧ x < (t2.totalChunks : Int)) :
    RecInv st2 := by
  intro tid2 t3 ht3
  rw [hst2, mget_mset] at ht3
  by_cases he : tid2 = tid
  · rw [if_pos he] at ht3
    injection ht3 with h4
    rw [← h4]
    exact h2
  · rw [if_neg he] at ht3
    exact hinv tid2 t3 ht3

theorem sendNextChunk_state (cfg : Cfg) (fs : Fs) (now : Nat)
    (st : EngineState) (tid : String) (i : Int) :
    (sendNextChunk cfg fs now st tid i).1 = st := by
  unfold sendNextChunk
  cases mget st.transfers tid <;> cases mget st.filePaths tid <;> rfl

theorem recInv_acceptTransfer (cfg : Cfg) (now : Nat) (st : EngineState)
    (tid : String) (rf : Option Nat) (res : EngineState × List Sent)
    (hinv : RecInv st) (h : acceptTransfer cfg now st tid rf = .ok res) :
    RecInv res.1 := by
  unfold acceptTransfer at h
  cases ht : mget st.transfers tid with
  | none => simp [ht] at h
  | some t =>
    simp only [ht] at h
    by_cases hcond : t.direction ≠ Direction.receive ∨ t.state ≠ TransferState.pending
    · rw [if_pos hcond] at h
      simp at h
    · rw [if_neg hcond] at h
      injection h with h2
      subst h2
      exact recInv_set st hinv tid _ _ rfl (hinv tid t ht)

theorem recInv_rejectTransfer (cfg : Cfg) (now : Nat) (st : EngineState)
    (tid reason : String) (res : EngineState × List Sent)
    (hinv : RecInv st) (h : rejectTransfer cfg now st tid reason = .ok res) :
    RecInv res.1 := by
  unfold rejectTransfer at h
  cases ht : mget st.transfers tid with
  | none => simp [ht] at h
  | some t =>
    simp only [ht] at h
    by_cases hcond : t.direction ≠ Direction.receive ∨ t.state ≠ TransferState.pending
    · rw [if_pos hcond] at h
      simp at h
    · rw [if_neg hcond] at h
      injection h with h2
      subst h2
      exact recInv_set st hinv tid _ _ rfl (hinv tid t ht)

theorem recInv_resumeTransfer (cfg : Cfg) (now : Nat) (st : EngineState)
    (tid : String) (res : EngineState × List Sent)
    (hinv : RecInv st) (h : resumeTransfer cfg now st tid = .ok res) :
    RecInv res.1 := by
  unfold resumeTransfer at h
  cases ht : mget st.transfers tid with
  | none => simp [ht] at h
  | some t =>
    simp only [ht] at h
    by_cases hc1 : t.state = TransferState.completed
    · rw [if_pos hc1] at h
      simp at h
    · rw [if_neg hc1] at h
      by_cases hc2 : t.direction = Direction.receive
      · rw [if_pos hc2] at h
        have hinv1 : RecInv { st with
            transfers := mset st.transfers tid { t with state := .pending } } :=
          recInv_set st hinv tid _ _ rfl (hinv tid t ht)
        exact recInv_acceptTransfer cfg now _ tid _ res hinv1 h
      · rw [if_neg hc2] at h
        cases hp : mget st.filePaths tid with
        | none => simp [hp] at h
        | some fp =>
          simp only [hp] at h
          injection h with h2
          subst h2
          exact recInv_set st hinv tid _ _ rfl (hinv tid t ht)

theorem recInv_sendFile (cfg : Cfg) (fs : Fs) (now : Nat) (st : EngineState)
    (p fp tid : String) (hinv : RecInv st) :
    RecInv (sendFile cfg fs now st p fp tid).1 := by
  apply recInv_set st hinv tid _ _ rfl
  exact ⟨List.nodup_nil, fun x hx => absurd hx (List.not_mem_nil x)⟩

theorem recInv_handleOffer (cfg : Cfg) (now : Nat) (st : EngineState)
    (m : Msg) (fn : String) (sz : Nat) (mt : String) (h c tc : Nat)
    (sec : Option String) (ttl rf : Option Nat) (hinv : RecInv st) :
    RecInv (handleOffer cfg now st m fn sz mt h c tc sec ttl rf).1 := by
  by_cases hs : sizeExceedsLimit cfg sz = true
  · simp only [handleOffer, hs, if_true]
    exact hinv
  · have hs2 : sizeExceedsLimit cfg sz = false := by
      cases hq : sizeExceedsLimit cfg sz
      · rfl
      · exact absurd hq hs
    simp only [handleOffer, hs2, Bool.false_eq_true, if_false]
    have hF : RecInv { st with
        transfers := mset st.transfers m.transferId
          { id := m.transferId, direction := .receive, state := .pending
            peerId := m.fromId, filename := fn, size := sz, mimeType := mt
            hash := h, chunkSize := c, totalChunks := tc, receivedChunks := []
            startedAt := now, updatedAt := now, completedAt := none
            error := none, localPath := none, resumable := false } } :=
      recInv_set st hinv m.transferId _ _ rfl
        ⟨List.nodup_nil, fun x hx => absurd hx (List.not_mem_nil x)⟩
    by_cases hv : isValidSecret cfg now sec ttl = true
    · simp only [hv, if_true]
      cases hacc : acceptTransfer cfg now { st with
          transfers := mset st.transfers m.transferId
            { id := m.transferId, direction := .receive, state := .pending
              peerId := m.fromId, filename := fn, size := sz, mimeType := mt
              hash := h, chunkSize := c, totalChunks := tc
              receivedChunks := [], startedAt := now, updatedAt := now
              completedAt := none, error := none, localPath := none
              resumable := false } } m.transferId rf with
      | ok res => exact recInv_acceptTransfer _ _ _ _ _ _ hF hacc
      | error e => exact hF
    · have hv2 : isValidSecret cfg now sec ttl = false := by
        cases hq : isValidSecret cfg now sec ttl
        · rfl
        · exact absurd hq hv
      simp only [hv2, Bool.false_eq_true, if_false]
      by_cases ha : cfg.autoAccept = true
      · simp only [ha, if_true]
        cases hfind : cfg.trustedPeers.find? (fun p => p.id = m.fromId) with
        | none => exact hF
        | some peer =>
          by_cases htr : isPeerTrustValid now peer = true
          · simp only [htr, if_true]
            cases hacc : acceptTransfer cfg now { st with
                transfers := mset st.transfers m.transferId
                  { id := m.transferId, direction := .receive
                    state := .pending, peerId := m.fromId, filename := fn
                    size := sz, mimeType := mt, hash := h, chunkSize := c
                    totalChunks := tc, receivedChunks := [], startedAt := now
                    updatedAt := now, completedAt := none, error := none
                    localPath := none, resumable := false } }
                m.transferId rf with
            | ok res => exact recInv_acceptTransfer _ _ _ _ _ _ hF hacc
            | error e => exact hF
          · have htr2 : isPeerTrustValid now peer = false := by
              cases hq : isPeerTrustValid now peer
              · rfl
              · exact absurd hq htr
            simp only [htr2, Bool.false_eq_true, if_false]
            exact hF
      · have ha2 : cfg.autoAccept = false := by
          cases hq : cfg.autoAccept
          · rfl
          · exact absurd hq ha
        simp only [ha2, Bool.false_eq_true, if_false]
        exact hF

theorem recInv_handleAccept (cfg : Cfg) (fs : Fs) (now : Nat)
    (st : EngineState) (m : Msg) (rf : Option Nat) (hinv : RecInv st) :
    RecInv (handleAccept cfg fs now st m rf).1 := by
  unfold handleAccept
  cases ht : mget st.transfers m.transferId with
  | none => exact hinv
  | some t =>
    simp only []
    by_cases hd : t.direction ≠ Direction.send
    · rw [if_pos hd]
      exact hinv
    · rw [if_neg hd]
      rw [sendNextChunk_state]
      exact recInv_set st hinv m.transferId _ _ rfl (hinv m.transferId t ht)

theorem recInv_handleReject (now : Nat) (st : EngineState) (m : Msg)
    (reason : String) (hinv : RecInv st) :
    RecInv (handleReject now st m reason).1 := by
  unfold handleReject
  cases ht : mget st.transfers m.transferId with
  | none => exact hinv
  | some t => exact recInv_set st hinv m.transferId _ _ rfl (hinv m.transferId t ht)

theorem recInv_handleErrorMsg (now : Nat) (st : EngineState) (m : Msg)
    (message : String) (hinv : RecInv st) :
    RecInv (handleErrorMsg now st m message).1 := by
  unfold handleErrorMsg
  cases ht : mget st.transfers m.transferId with
  | none => exact hinv
  | some t => exact recInv_set st hinv m.transferId _ _ rfl (hinv m.transferId t ht)

theorem recInv_handleChunk (cfg : Cfg) (now : Nat) (st : EngineState)
    (m : Msg) (i : Int) (d : List Nat) (hsh : Nat) (hinv : RecInv st)
    (hbnd : ∀ t, mget st.transfers m.transferId = some t →
      0 ≤ i ∧ i < (t.totalChunks : Int)) :
    RecInv (handleChunk cfg now st m i d hsh).1 := by
  unfold handleChunk
  cases ht : mget st.transfers m.transferId with
  | none => exact hinv
  | some t =>
    simp only []
    by_cases hd : t.direction ≠ Direction.receive
    · rw [if_pos hd]
      exact hinv
    · rw [if_neg hd]
      cases ha : mget st.assemblers m.transferId with
      | none => exact hinv
      | some asm =>
        rcases hbnd t ht with ⟨h0, hN⟩
        obtain ⟨hnd, hbd⟩ := hinv _ _ ht
        apply recInv_set st hinv m.transferId _ _ rfl
        cases hsucc : (asm.addChunk i d hsh).2 with
        | false =>
          simp only [hsucc, Bool.false_eq_true, if_false]
          exact hinv _ _ ht
        | true =>
          simp only [hsucc, if_true]
          refine ⟨sadd_nodup _ _ hnd, fun x hx => ?_⟩
          rcases (mem_sadd _ _ _).mp hx with rfl | hmem
          · exact ⟨h0, hN⟩
          · exact hbd x hmem

theorem recInv_handleAck (cfg : Cfg) (fs : Fs) (now : Nat) (st : EngineState)
    (m : Msg) (i : Int) (recv : Bool) (hinv : RecInv st)
    (hbnd : ∀ t, mget st.transfers m.transferId = some t →
      0 ≤ i ∧ i < (t.totalChunks : Int)) :
    RecInv (handleAck cfg fs now st m i recv).1 := by
  unfold handleAck
  cases ht : mget st.transfers m.transferId with
  | none => exact hinv
  | some t =>
    simp only []
    by_cases hd : t.direction ≠ Direction.send
    · rw [if_pos hd]
      exact hinv
    · rw [if_neg hd]
      by_cases hterm : t.state = TransferState.completed
          ∨ t.state = TransferState.completing
      · rw [if_pos hterm]
        by_cases hi : i = -1
        · rw [if_pos hi]
          exact recInv_set st hinv m.transferId _ _ rfl (hinv m.transferId t ht)
        · rw [if_neg hi]
          exact hinv
      · rw [if_neg hterm]
        by_cases hr : ¬ recv = true
        · rw [if_pos hr, sendNextChunk_state]
          exact hinv
        · rw [if_neg hr]
          rcases hbnd t ht with ⟨h0, hN⟩
          obtain ⟨hnd, hbd⟩ := hinv _ _ ht
          have h2 : (sadd t.receivedChunks i).Nodup
              ∧ ∀ x ∈ sadd t.receivedChunks i,
                  0 ≤ x ∧ x < (t.totalChunks : Int) := by
            refine ⟨sadd_nodup _ _ hnd, fun x hx => ?_⟩
            rcases (mem_sadd _ _ _).mp hx with rfl | hmem
            · exact ⟨h0, hN⟩
            · exact hbd x hmem
          by_cases hnext : i + 1 < (t.totalChunks : Int)
          · rw [if_pos hnext, sendNextChunk_state]
            exact recInv_set st hinv m.transferId _ _ rfl h2
          · rw [if_neg hnext]
            exact recInv_set st hinv m.transferId _ _
              (mset_mset st.transfers m.transferId _ _) h2

theorem recInv_handleComplete (cfg : Cfg) (now : Nat) (st : EngineState)
    (m : Msg) (hinv : RecInv st) :
    RecInv (handleComplete cfg now st m).1 := by
  unfold handleComplete
  cases ht : mget st.transfers m.transferId with
  | none => exact hinv
  | some t =>
    simp only []
    by_cases hd : t.direction ≠ Direction.receive
    · rw [if_pos hd]
      exact hinv
    · rw [if_neg hd]
      cases ha : mget st.assemblers m.transferId with
      | none => exact hinv
      | some asm =>
        cases hres : asm.assemble with
        | ok bytes =>
          simp only [hres]
          exact recInv_set st hinv m.transferId _ _ rfl (hinv m.transferId t ht)
        | error e =>
          simp only [hres]
          exact recInv_set st hinv m.transferId _ _ rfl (hinv m.transferId t ht)

theorem recInv_step (cfg : Cfg) (fs : Fs) (st : EngineState) (a : EngAct)
    (hinv : RecInv st) (hok : BoundedAct st a) :
    RecInv (engStep cfg fs st a) := by
  cases a with
  | recv fromId text now =>
    cases text with
    | plain s => exact hinv
    | garbled s => exact hinv
    | encoded m =>
      show RecInv (handleMessage cfg fs now st fromId (.encoded m)).1
      unfold handleMessage
      by_cases hto : m.toId ≠ cfg.botId
      · simp only [hasMarker, decodeFromChat, if_pos hto]
        exact hinv
      · simp only [hasMarker, decodeFromChat, if_neg hto]
        cases hp : m.payload with
        | offer fn sz mt h c tc sec ttl rf =>
          exact recInv_handleOffer cfg now st m fn sz mt h c tc sec ttl rf hinv
        | accept ready rf => exact recInv_handleAccept cfg fs now st m rf hinv
        | reject reason => exact recInv_handleReject now st m reason hinv
        | chunk i d hsh =>
          exact recInv_handleChunk cfg now st m i d hsh hinv
            (hok fromId m now i rfl (Or.inl ⟨d, hsh, hp⟩))
        | ack i recv err =>
          exact recInv_handleAck cfg fs now st m i recv hinv
            (hok fromId m now i rfl (Or.inr ⟨recv, err, hp⟩))
        | complete tc hsh => exact recInv_handleComplete cfg now st m hinv
        | error code message recoverable =>
          exact recInv_handleErrorMsg now st m message hinv
  | sendF p fp tid now => exact recInv_sendFile cfg fs now st p fp tid hinv
  | acceptT tid r now =>
    show RecInv (match acceptTransfer cfg now st tid r with
      | .ok res => res.1
      | .error _ => st)
    cases hacc : acceptTransfer cfg now st tid r with
    | ok res => exact recInv_acceptTransfer _ _ _ _ _ _ hinv hacc
    | error e => exact hinv
  | rejectT tid reason now =>
    show RecInv (match rejectTransfer cfg now st tid reason with
      | .ok res => res.1
      | .error _ => st)
    cases hacc : rejectTransfer cfg now st tid reason with
    | ok res => exact recInv_rejectTransfer _ _ _ _ _ _ hinv hacc
    | error e => exact hinv
  | resumeT tid now =>
    show RecInv (match resumeTransfer cfg now st tid with
      | .ok res => res.1
      | .error _ => st)
    cases hacc : resumeTransfer cfg now st tid with
    | ok res => exact recInv_resumeTransfer _ _ _ _ _ hinv hacc
    | error e => exact hinv

theorem recInv_run (cfg : Cfg) (fs : Fs) (st0 st : EngineState)
    (h0 : RecInv st0) (hrun : BoundedRun cfg fs st0 st) : RecInv st := by
  induction hrun with
  | refl => exact h0
  | step st1 a hrun2 hokA ih => exact recInv_step cfg fs st1 a ih hokA

/-- C3 (amended): over any run of handled messages and local calls in which
every delivered chunk or ack index lies in `[0, totalChunks)` of its transfer
(as the protocol's own sender and receiver produce them), every tracked
transfer keeps `receivedChunks.size ≤ totalChunks`.  Without that bound the
invariant fails, as the counterexample run shows: neither index nor set size
is ever checked by the engine. -/
theorem receivedChunks_le_totalChunks (cfg : Cfg) (fs : Fs)
    (st0 st : EngineState) (tid : String) (t : TransferInfo)
    (h0 : RecInv st0) (hrun : BoundedRun cfg fs st0 st)
    (ht : mget st.transfers tid = some t) :
    t.receivedChunks.length ≤ t.totalChunks := by
  obtain ⟨hnd, hbd⟩ := recInv_run cfg fs st0 st h0 hrun tid t ht
  exact length_le_of_nodup_bounded _ _ hnd hbd

/-- C3 witness: the bound applied after one bounded step from the empty
engine: handling `c3Offer` creates (and auto-accepts) a transfer whose set
size 0 is within its single chunk. -/
theorem receivedChunks_le_totalChunks_witness :
    c3AcceptedT.receivedChunks.length ≤ c3AcceptedT.totalChunks :=
  receivedChunks_le_totalChunks exCfg exFs3 EngineState.init
    (engStep exCfg exFs3 EngineState.init (.recv "P" (.encoded c3Offer) 0))
    "t" c3AcceptedT
    (by
      intro tid t ht
      rw [show EngineState.init.transfers = [] from rfl, mget_nil] at ht
      exact Option.noConfusion ht)
    (.step _ _ _ (.refl _) (by
      intro fromId m now i hEq hpay t ht
      injection hEq with hf hx hn
      injection hx with hm
      rcases hpay with ⟨d, hsh, heq⟩ | ⟨r, e, heq⟩ <;>
        · rw [← hm] at heq
          simp [c3Offer, createMessage] at heq))
    (by rfl)

/-! ## Claim C2 — stop-and-wait ordering -/

theorem runRecvSteps_cons (cfg : Cfg) (fs : Fs) (now : Nat)
    (fromId : String) (st : EngineState) (x : ChatText) (xs : List ChatText) :
    runRecvSteps cfg fs now fromId st (x :: xs)
      = ((runRecvSteps cfg fs now fromId
            (handleMessage cfg fs now st fromId x).1 xs).1,
         (handleMessage cfg fs now st fromId x).2.1
           :: (runRecvSteps cfg fs now fromId
                (handleMessage cfg fs now st fromId x).1 xs).2) := rfl

theorem accept_step (cfg : Cfg) (fs : Fs) (now : Nat) (st0 : EngineState)
    (tid peer p : String) (t0 : TransferInfo)
    (hdir : t0.direction = .send) (hpeer : t0.peerId = peer)
    (ht : mget st0.transfers tid = some t0)
    (hp : mget st0.filePaths tid = some p) :
    handleMessage cfg fs now st0 peer
        (.encoded (createMessage tid peer cfg.botId now (.accept true none)))
      = ({ st0 with
            transfers := mset st0.transfers tid
              (trMid t0 now t0.receivedChunks) },
         [chunkSend cfg tid peer now (fs p) t0.chunkSize ((0 : Nat) : Int)],
         true) := by
  simp [handleMessage, hasMarker, decodeFromChat, createMessage, handleAccept,
    ht, hdir, sendNextChunk, mget_mset, hp, chunkSend, trMid, hpeer]
  rfl

set_option maxRecDepth 4096 in
theorem ack_step_mid (cfg : Cfg) (fs : Fs) (now : Nat) (st0 : EngineState)
    (tid peer p : String) (t0 : TransferInfo) (r : List Int) (j : Nat)
    (hdir : t0.direction = .send) (hpeer : t0.peerId = peer)
    (hp : mget st0.filePaths tid = some p)
    (hj : j + 1 < t0.totalChunks) :
    handleMessage cfg fs now
        { st0 with transfers := mset st0.transfers tid (trMid t0 now r) }
        peer (ackText tid peer cfg.botId now (j : Int))
      = ({ st0 with
            transfers := mset st0.transfers tid
              (trMid t0 now (sadd r (j : Int))) },
         [chunkSend cfg tid peer now (fs p) t0.chunkSize ((j + 1 : Nat) : Int)],
         true) := by
  have hlt : ((j : Int) + 1) < (t0.totalChunks : Int) := by exact_mod_cast hj
  simp [handleMessage, hasMarker, decodeFromChat, ackText, createMessage,
    handleAck, mget_mset, trMid, hdir, hlt, sendNextChunk, hp,
    chunkSend, mset_mset, hpeer]
  rfl

set_option maxRecDepth 4096 in
theorem ack_step_final (cfg : Cfg) (fs : Fs) (now : Nat) (st0 : EngineState)
    (tid peer p : String) (t0 : TransferInfo) (r : List Int) (j : Nat)
    (hdir : t0.direction = .send) (hpeer : t0.peerId = peer)
    (hp : mget st0.filePaths tid = some p)
    (hj : j + 1 = t0.totalChunks) :
    handleMessage cfg fs now
        { st0 with transfers := mset st0.transfers tid (trMid t0 now r) }
        peer (ackText tid peer cfg.botId now (j : Int))
      = ({ st0 with
            transfers := mset st0.transfers tid
              (trFin t0 now (sadd r (j : Int))) },
         [completeSend cfg tid peer now t0.totalChunks t0.hash], true) := by
  have hnlt : ¬ (((j : Int) + 1) < (t0.totalChunks : Int)) := by omega
  simp [handleMessage, hasMarker, decodeFromChat, ackText, createMessage,
    handleAck, mget_mset, trMid, trFin, hdir, hnlt, completeSend, mset_mset,
    hpeer]

theorem ackRun_suffix (cfg : Cfg) (fs : Fs) (now : Nat) (st0 : EngineState)
    (tid peer p : String) (t0 : TransferInfo)
    (hdir : t0.direction = .send) (hpeer : t0.peerId = peer)
    (hp : mget st0.filePaths tid = some p) :
    ∀ n j (r : List Int), j + (n + 1) = t0.totalChunks →
      runRecvSteps cfg fs now peer
          { st0 with transfers := mset st0.transfers tid (trMid t0 now r) }
          ((List.range' j (n + 1)).map
            (fun k : Nat => ackText tid peer cfg.botId now (k : Int)))
        = ({ st0 with
              transfers := mset st0.transfers tid
                (trFin t0 now
                  (((List.range' j (n + 1)).map (fun k : Nat => (k : Int))).foldl
                    sadd r)) },
           (List.range' j (n + 1)).map (fun k : Nat =>
              if k + 1 < t0.totalChunks then
                [chunkSend cfg tid peer now (fs p) t0.chunkSize
                  ((k + 1 : Nat) : Int)]
              else [completeSend cfg tid peer now t0.totalChunks t0.hash])) := by
  intro n
  induction n with
  | zero =>
    intro j r hj
    rw [show List.range' j 1 = [j] from rfl]
    simp only [List.map_cons, List.map_nil, runRecvSteps_cons]
    rw [ack_step_final cfg fs now st0 tid peer p t0 r j hdir hpeer hp hj]
    simp only [List.foldl_cons, List.foldl_nil]
    rw [if_neg (by omega : ¬ (j + 1 < t0.totalChunks))]
    rfl
  | succ n ih =>
    intro j r hj
    rw [show List.range' j (n + 1 + 1) = j :: List.range' (j + 1) (n + 1)
      from rfl]
    simp only [List.map_cons, List.foldl_cons, runRecvSteps_cons]
    rw [ack_step_mid cfg fs now st0 tid peer p t0 r j hdir hpeer hp (by omega)]
    simp only []
    rw [ih (j + 1) (sadd r (j : Int)) (by omega),
      if_pos (by omega : j + 1 < t0.totalChunks)]

theorem ackRun_mid (cfg : Cfg) (fs : Fs) (now : Nat) (st0 : EngineState)
    (tid peer p : String) (t0 : TransferInfo)
    (hdir : t0.direction = .send) (hpeer : t0.peerId = peer)
    (hp : mget st0.filePaths tid = some p) :
    ∀ n j (r : List Int), j + n + 1 ≤ t0.totalChunks →
      runRecvSteps cfg fs now peer
          { st0 with transfers := mset st0.transfers tid (trMid t0 now r) }
          ((List.range' j n).map
            (fun k : Nat => ackText tid peer cfg.botId now (k : Int)))
        = ({ st0 with
              transfers := mset st0.transfers tid
                (trMid t0 now
                  (((List.range' j n).map (fun k : Nat => (k : Int))).foldl
                    sadd r)) },
           (List.range' j n).map (fun k : Nat =>
              [chunkSend cfg tid peer now (fs p) t0.chunkSize
                ((k + 1 : Nat) : Int)])) := by
  intro n
  induction n with
  | zero =>
    intro j r hj
    rfl
  | succ n ih =>
    intro j r hj
    rw [show List.range' j (n + 1) = j :: List.range' (j + 1) n from rfl]
    simp only [List.map_cons, List.foldl_cons, runRecvSteps_cons]
    rw [ack_step_mid cfg fs now st0 tid peer p t0 r j hdir hpeer hp (by omega)]
    simp only []
    rw [ih (j + 1) (sadd r (j : Int)) (by omega)]

/-- C2: for a tracked send-direction transfer with `totalChunks = N > 0`,
after its accept is handled (which emits chunk 0), delivering the acks for
indices 0..N-1 in order makes the sender emit, per ack `k` with `k+1 < N`,
exactly the single chunk `k+1` — so the chunks go out strictly in order
0..N-1, one at a time — and, on the N-th ack, exactly the `complete` message;
the transfer's state is `transferring` after every proper prefix of the acks
and becomes `completing` exactly after the N-th ack. -/
theorem stop_and_wait (cfg : Cfg) (fs : Fs) (now : Nat) (st0 : EngineState)
    (tid peer p : String) (t0 : TransferInfo)
    (hdir : t0.direction = .send) (hpeer : t0.peerId = peer)
    (hN0 : 0 < t0.totalChunks)
    (ht : mget st0.transfers tid = some t0)
    (hp : mget st0.filePaths tid = some p) :
    (handleMessage cfg fs now st0 peer
        (.encoded (createMessage tid peer cfg.botId now (.accept true none)))).2.1
      = [chunkSend cfg tid peer now (fs p) t0.chunkSize ((0 : Nat) : Int)]
    ∧ (runRecvSteps cfg fs now peer
        (handleMessage cfg fs now st0 peer
          (.encoded (createMessage tid peer cfg.botId now (.accept true none)))).1
        ((List.range t0.totalChunks).map
          (fun k : Nat => ackText tid peer cfg.botId now (k : Int)))).2
      = (List.range t0.totalChunks).map (fun k : Nat =>
          if k + 1 < t0.totalChunks then
            [chunkSend cfg tid peer now (fs p) t0.chunkSize ((k + 1 : Nat) : Int)]
          else [completeSend cfg tid peer now t0.totalChunks t0.hash])
    ∧ (mget (runRecvSteps cfg fs now peer
        (handleMessage cfg fs now st0 peer
          (.encoded (createMessage tid peer cfg.botId now (.accept true none)))).1
        ((List.range t0.totalChunks).map
          (fun k : Nat => ackText tid peer cfg.botId now (k : Int)))).1.transfers
        tid).map TransferInfo.state = some .completing
    ∧ ∀ j, j < t0.totalChunks →
        (mget (runRecvSteps cfg fs now peer
            (handleMessage cfg fs now st0 peer
              (.encoded (createMessage tid peer cfg.botId now
                (.accept true none)))).1
            ((List.range j).map
              (fun k : Nat => ackText tid peer cfg.botId now (k : Int)))).1.transfers
          tid).map TransferInfo.state = some .transferring := by
  have hacc := accept_step cfg fs now st0 tid peer p t0 hdir hpeer ht hp
  have hst1 : (handleMessage cfg fs now st0 peer
      (.encoded (createMessage tid peer cfg.botId now (.accept true none)))).1
      = { st0 with
          transfers := mset st0.transfers tid (trMid t0 now t0.receivedChunks) } := by
    rw [hacc]
  have hfull := ackRun_suffix cfg fs now st0 tid peer p t0 hdir hpeer hp
    (t0.totalChunks - 1) 0 t0.receivedChunks (by omega)
  rw [show t0.totalChunks - 1 + 1 = t0.totalChunks by omega] at hfull
  refine ⟨by rw [hacc], ?_, ?_, ?_⟩
  · rw [hst1, List.range_eq_range', hfull]
  · rw [hst1, List.range_eq_range', hfull]
    simp [mget_mset, trFin]
  · intro j hj
    rw [hst1, List.range_eq_range']
    rw [ackRun_mid cfg fs now st0 tid peer p t0 hdir hpeer hp j 0
      t0.receivedChunks (by omega)]
    simp [mget_mset, trMid]

/-- C2 witness: the whole protocol conversation for a 2-chunk transfer —
accept emits chunk 0, ack 0 emits exactly chunk 1, ack 1 emits exactly the
`complete` message, final state `completing`, and the one-ack prefix is still
`transferring`. -/
theorem stop_and_wait_witness :
    (handleMessage exCfg exFs2 0 c2State "P"
        (.encoded (createMessage "t" "P" "B" 0 (.accept true none)))).2.1
      = [chunkSend exCfg "t" "P" 0 (exFs2 "f.bin") 1 ((0 : Nat) : Int)]
    ∧ (runRecvSteps exCfg exFs2 0 "P"
        (handleMessage exCfg exFs2 0 c2State "P"
          (.encoded (createMessage "t" "P" "B" 0 (.accept true none)))).1
        ((List.range 2).map
          (fun k : Nat => ackText "t" "P" "B" 0 (k : Int)))).2
      = (List.range 2).map (fun k : Nat =>
          if k + 1 < 2 then
            [chunkSend exCfg "t" "P" 0 (exFs2 "f.bin") 1 ((k + 1 : Nat) : Int)]
          else [completeSend exCfg "t" "P" 0 2 (sha256 [10, 20])]) := by
  have h := stop_and_wait exCfg exFs2 0 c2State "t" "P" "f.bin" c2Transfer
    (by decide) (by decide) (by decide) (by decide) (by decide)
  exact ⟨h.1, h.2.1⟩

end OCFT
